import Mathlib

/-!
Shallow embedding of the `w-chess` rules engine (`src/lib.rs`, `src/chess_move.rs`,
`src/piece.rs`) in Lean 4, used to settle the claims of the natural-language
specification against the source.

Rust `u64` values are embedded as `Nat`; left shifts are reduced modulo `2 ^ 64`
exactly where the machine width matters.  The `HashMap<u64, u64>` move tables are
embedded as lists of 64 masks indexed by square number, and every iteration over
a hash map in the source is embedded as iteration in ascending square order
(the source iterates in unspecified hash order; each claim settled below is
insensitive to that order, as noted where it matters).

The module `square.rs` of the repository is declared (`mod square;`) but its file
is not part of the sources; every definition taken from it is marked
`Modelled from the spec:` in its doc string and follows the specification text.
-/

namespace WChess

/-- Width mask for 64-bit values. -/
def MASK64 : Nat := 2 ^ 64 - 1

/-- Rust `u64` left shift: bits shifted beyond position 63 are dropped. -/
def shl64 (x n : Nat) : Nat := (x <<< n) % 2 ^ 64

/-- Rust `!x` on `u64`: bitwise complement within 64 bits. -/
def not64 (x : Nat) : Nat := MASK64 ^^^ (x &&& MASK64)

/-- Modelled from the spec: `square.rs` is absent; file-A mask (bits of squares
`a1, a2, …, a8`, square index `= file + 8 * rank`, a1 = 0 … h8 = 63). -/
def FILE_A : Nat := 0x0101010101010101

/-- Modelled from the spec: file-B mask. -/
def FILE_B : Nat := FILE_A <<< 1

/-- Modelled from the spec: file-C mask. -/
def FILE_C : Nat := FILE_A <<< 2

/-- Modelled from the spec: file-D mask. -/
def FILE_D : Nat := FILE_A <<< 3

/-- Modelled from the spec: file-E mask. -/
def FILE_E : Nat := FILE_A <<< 4

/-- Modelled from the spec: file-F mask. -/
def FILE_F : Nat := FILE_A <<< 5

/-- Modelled from the spec: file-G mask. -/
def FILE_G : Nat := FILE_A <<< 6

/-- Modelled from the spec: file-H mask. -/
def FILE_H : Nat := FILE_A <<< 7

/-- Modelled from the spec: rank-1 mask (squares a1–h1). -/
def RANK_1 : Nat := 0xFF

/-- Modelled from the spec: rank-2 mask. -/
def RANK_2 : Nat := 0xFF <<< 8

/-- Modelled from the spec: rank-3 mask. -/
def RANK_3 : Nat := 0xFF <<< 16

/-- Modelled from the spec: rank-4 mask. -/
def RANK_4 : Nat := 0xFF <<< 24

/-- Modelled from the spec: rank-5 mask. -/
def RANK_5 : Nat := 0xFF <<< 32

/-- Modelled from the spec: rank-6 mask. -/
def RANK_6 : Nat := 0xFF <<< 40

/-- Modelled from the spec: rank-7 mask. -/
def RANK_7 : Nat := 0xFF <<< 48

/-- Modelled from the spec: rank-8 mask. -/
def RANK_8 : Nat := 0xFF <<< 56

/-- Modelled from the spec: the two squares the white king traverses when
castling king-side (pass-through f1 and destination g1, §4.2: "the king may
not be in check at its ... pass-through, or destination square"); used both
for the empty-path test and for white's castling attack test. -/
def WHITE_KING_SIDE_CASTLE : Nat := (1 <<< 5) ||| (1 <<< 6)

/-- Modelled from the spec: the two squares the white king traverses when
castling queen-side (destination c1 and pass-through d1).  The repository's
own `castle_white_queen_side` test pins this mask: there the black queen
attacks b1 while the castle succeeds, so b1 is not part of the mask. -/
def WHITE_QUEEN_SIDE_CASTLE : Nat := (1 <<< 2) ||| (1 <<< 3)

/-- Modelled from the spec: the two squares the black king traverses when
castling king-side (pass-through f8 and destination g8). -/
def BLACK_KING_SIDE_CASTLE : Nat := (1 <<< 61) ||| (1 <<< 62)

/-- Modelled from the spec: the two squares the black king traverses when
castling queen-side (destination c8 and pass-through d8); as with white, the
repository's `castle_black_queen_side` test (queen attacking b8, castle
succeeding) pins b8 out of the mask. -/
def BLACK_QUEEN_SIDE_CASTLE : Nat := (1 <<< 58) ||| (1 <<< 59)

/-- Modelled from the spec: the white king-side castling target square g1
(§4.5: "a King-piece descriptor whose destination coincides with a castling
target square"). -/
def WHITE_KING_SIDE_CASTLE_SQUARE : Nat := 1 <<< 6

/-- Modelled from the spec: the white queen-side castling target square c1. -/
def WHITE_QUEEN_SIDE_CASTLE_SQUARE : Nat := 1 <<< 2

/-- Modelled from the spec: the black king-side castling target square g8. -/
def BLACK_KING_SIDE_CASTLE_SQUARE : Nat := 1 <<< 62

/-- Modelled from the spec: the black queen-side castling target square c8. -/
def BLACK_QUEEN_SIDE_CASTLE_SQUARE : Nat := 1 <<< 58

/-- Modelled from the spec: the standard start FEN. -/
def START_FEN : String := "rnbqkbnr/pppppppp/8/8/8/8/PPPPPPPP/RNBQKBNR w KQkq - 0 1"

/-- Modelled from the spec: a `Square` is an integer 0–63, rank-major a1 = 0 …
h8 = 63; the name of square `i` is its file letter followed by its rank digit. -/
def squareName (i : Nat) : String :=
  String.mk [Char.ofNat (97 + i % 8), Char.ofNat (49 + i / 8)]

/-- Modelled from the spec: `Square::from(&str)` — a two-character square name
parsed as file letter plus rank digit, packed as `file + rank * 8`. -/
def squareOfName (s : String) : Nat :=
  match s.data with
  | [f, r] => (f.toNat - 97) + (r.toNat - 49) * 8
  | _ => 0

/-- Modelled from the spec: `Square::from(u64)` — §3 fixes "bit index = square
index in a 64-bit mask", so a mask is taken to the square of its lowest set bit
(0 when no bit below 64 is set). -/
def squareOfMask (x : Nat) : Nat :=
  ((List.range 64).find? (fun i => x.testBit i)).getD 0

/-- Piece kinds, with the discriminants of `piece.rs`. -/
inductive Piece where
  | PAWN
  | BISHOP
  | KNIGHT
  | ROOK
  | QUEEN
  | KING
  | UNKNOWN
deriving DecidableEq, Repr

/-- Discriminant of a piece kind, the index into the `pieces` array. -/
def Piece.idx : Piece → Nat
  | .PAWN => 0
  | .BISHOP => 1
  | .KNIGHT => 2
  | .ROOK => 3
  | .QUEEN => 4
  | .KING => 5
  | .UNKNOWN => 6

/-- Castling kinds from `chess_move.rs`. -/
inductive CastlingType where
  | KingSide
  | QueenSide
deriving DecidableEq, Repr

/-- The parsed SAN move descriptor of `chess_move.rs` (`SanMove`); the borrowed
`san` text is embedded as an owned string. -/
structure SanMove where
  san : String
  piece : Piece
  toSq : Nat
  fromSq : Nat
  promotion : Option Piece
  castling : Option CastlingType
deriving DecidableEq, Repr

/-- The applied-move record of `chess_move.rs` (`ChessMove`); `from`/`to` hold
square numbers (the Rust fields hold `Square` values). -/
structure ChessMove where
  color : Bool
  before : String
  after : String
  fromSq : Nat
  toSq : Nat
  piece : Piece
  captured : Option Piece
  promotion : Option Piece
  san : String
  castling : Option CastlingType
deriving DecidableEq, Repr

/-- Constructor `ChessMove::new` of `chess_move.rs`. -/
def ChessMove.new (san : SanMove) (color : Bool) (before after : String)
    (fromSquare : Nat) (captured : Option Piece) : ChessMove :=
  { color := color
    before := before
    after := after
    fromSq := squareOfMask fromSquare
    toSq := squareOfMask san.toSq
    piece := san.piece
    captured := captured
    promotion := san.promotion
    san := san.san
    castling := san.castling }

/-- The `Chessboard` state of `lib.rs`.  `pieces` is the 6-entry array of piece
boards; `pseudoLegalMoves` and `legalMoves` embed the `HashMap<u64, u64>` move
tables as 64 masks indexed by square number; `boardRepetitions` embeds the
repetition hash map as an association list. -/
structure Chessboard where
  white : Nat
  black : Nat
  staticWhiteAttackMask : Nat
  staticBlackAttackMask : Nat
  pieces : List Nat
  pseudoLegalMoves : List Nat
  dynamicPieceSquares : List Nat
  legalMoves : List Nat
  turn : Bool
  castleRights : List Bool
  enPassantSquare : Option Nat
  halfMove : Nat
  fullMove : Nat
  boardRepetitions : List (String × Nat)
  history : List ChessMove
deriving DecidableEq, Repr

namespace Chessboard

/-- Method `get_color`. -/
def getColor (b : Chessboard) (color : Bool) : Nat :=
  match color with
  | true => b.white
  | false => b.black

/-- Method `all`. -/
def all (b : Chessboard) : Nat := b.white ||| b.black

/-- Method `generate_pawn_moves` (lines 86–141 of `lib.rs`), including the
unguarded `<< 7`/`<< 9` diagonal shifts. -/
def generatePawnMoves (b : Chessboard) (square : Nat) : Nat :=
  let color := b.white &&& square != 0
  match color with
  | true =>
    let mask := 0
    let mask := if shl64 square 7 &&& b.black != 0 then mask ||| shl64 square 7 else mask
    let mask := if shl64 square 9 &&& b.black != 0 then mask ||| shl64 square 9 else mask
    let mask :=
      if shl64 square 8 &&& b.all == 0 then
        let mask := mask ||| shl64 square 8
        if square &&& RANK_2 != 0 && shl64 square 16 &&& b.all == 0 then
          mask ||| shl64 square 16
        else mask
      else mask
    match b.enPassantSquare with
    | some enPassantSquare =>
      if shl64 square 7 == enPassantSquare || shl64 square 9 == enPassantSquare then
        mask ||| enPassantSquare
      else mask
    | none => mask
  | false =>
    let mask := 0
    let mask := if square >>> 7 &&& b.white != 0 then mask ||| square >>> 7 else mask
    let mask := if square >>> 9 &&& b.white != 0 then mask ||| square >>> 9 else mask
    let mask :=
      if square >>> 8 &&& b.all == 0 then
        let mask := mask ||| square >>> 8
        if square &&& RANK_7 != 0 && square >>> 16 &&& b.all == 0 then
          mask ||| square >>> 16
        else mask
      else mask
    match b.enPassantSquare with
    | some enPassantSquare =>
      if square >>> 7 == enPassantSquare || square >>> 9 == enPassantSquare then
        mask ||| enPassantSquare
      else mask
    | none => mask

/-- Method `generate_knight_moves` (lines 143–187). -/
def generateKnightMoves (_b : Chessboard) (square : Nat) : Nat :=
  let mask := 0
  let mask := if square &&& FILE_A == 0 && square &&& (RANK_8 ||| RANK_7) == 0 then
    mask ||| shl64 square 15 else mask
  let mask := if square &&& FILE_H == 0 && square &&& (RANK_8 ||| RANK_7) == 0 then
    mask ||| shl64 square 17 else mask
  let mask := if square &&& FILE_A == 0 && square &&& (RANK_1 ||| RANK_2) == 0 then
    mask ||| square >>> 17 else mask
  let mask := if square &&& FILE_H == 0 && square &&& (RANK_1 ||| RANK_2) == 0 then
    mask ||| square >>> 15 else mask
  let mask := if square &&& (FILE_A ||| FILE_B) == 0 && square &&& RANK_8 == 0 then
    mask ||| shl64 square 6 else mask
  let mask := if square &&& (FILE_A ||| FILE_B) == 0 && square &&& RANK_1 == 0 then
    mask ||| square >>> 10 else mask
  let mask := if square &&& (FILE_H ||| FILE_G) == 0 && square &&& RANK_8 == 0 then
    mask ||| shl64 square 10 else mask
  let mask := if square &&& (FILE_H ||| FILE_G) == 0 && square &&& RANK_1 == 0 then
    mask ||| square >>> 6 else mask
  mask

/-- One `while` ray of the sliding-move generators: starting from `cur`, while
the edge mask `stopMask` is not reached, step once, accumulate the new square,
and stop after stepping onto an occupied square.  `fuel` bounds the recursion;
64 steps always exceed the at most 7 iterations of the source loops. -/
def rayLoop (board stopMask : Nat) (step : Nat → Nat) : Nat → Nat → Nat
  | 0, _ => 0
  | fuel + 1, cur =>
    if cur &&& stopMask == 0 then
      let next := step cur
      if next &&& board != 0 then next
      else next ||| rayLoop board stopMask step fuel next
    else 0

/-- Method `generate_rook_moves` (lines 189–229). -/
def generateRookMoves (_b : Chessboard) (square board : Nat) : Nat :=
  rayLoop board RANK_8 (fun x => shl64 x 8) 64 square |||
  rayLoop board RANK_1 (fun x => x >>> 8) 64 square |||
  rayLoop board FILE_A (fun x => x >>> 1) 64 square |||
  rayLoop board FILE_H (fun x => shl64 x 1) 64 square

/-- Method `generate_bishop_moves` (lines 231–269). -/
def generateBishopMoves (_b : Chessboard) (square board : Nat) : Nat :=
  rayLoop board (RANK_8 ||| FILE_A) (fun x => shl64 x 7) 64 square |||
  rayLoop board (RANK_8 ||| FILE_H) (fun x => shl64 x 9) 64 square |||
  rayLoop board (RANK_1 ||| FILE_A) (fun x => x >>> 9) 64 square |||
  rayLoop board (RANK_1 ||| FILE_H) (fun x => x >>> 7) 64 square

/-- Method `generate_king_moves` (lines 271–307). -/
def generateKingMoves (_b : Chessboard) (square : Nat) : Nat :=
  let mask := 0
  let mask := if square &&& RANK_8 == 0 then mask ||| shl64 square 8 else mask
  let mask := if square &&& RANK_1 == 0 then mask ||| square >>> 8 else mask
  let mask := if square &&& FILE_A == 0 then mask ||| shl64 square 1 else mask
  let mask := if square &&& FILE_H == 0 then mask ||| square >>> 1 else mask
  let mask := if square &&& (RANK_8 ||| FILE_A) == 0 then mask ||| shl64 square 9 else mask
  let mask := if square &&& (RANK_8 ||| FILE_H) == 0 then mask ||| shl64 square 7 else mask
  let mask := if square &&& (RANK_1 ||| FILE_A) == 0 then mask ||| square >>> 7 else mask
  let mask := if square &&& (RANK_1 ||| FILE_H) == 0 then mask ||| square >>> 9 else mask
  mask

/-- Method `generate_queen_moves` (lines 309–311). -/
def generateQueenMoves (b : Chessboard) (square board : Nat) : Nat :=
  b.generateRookMoves square board ||| b.generateBishopMoves square board

/-- Method `get_piece` (lines 495–521), testing the piece boards in the
source's order. -/
def getPiece (b : Chessboard) (square : Nat) : Piece :=
  if b.pieces.getD Piece.PAWN.idx 0 &&& square != 0 then .PAWN
  else if b.pieces.getD Piece.KNIGHT.idx 0 &&& square != 0 then .KNIGHT
  else if b.pieces.getD Piece.BISHOP.idx 0 &&& square != 0 then .BISHOP
  else if b.pieces.getD Piece.ROOK.idx 0 &&& square != 0 then .ROOK
  else if b.pieces.getD Piece.QUEEN.idx 0 &&& square != 0 then .QUEEN
  else if b.pieces.getD Piece.KING.idx 0 &&& square != 0 then .KING
  else .UNKNOWN

/-- Function `get_squares` (lines 1299–1308): the single-bit masks of a
bitboard in ascending square order. -/
def getSquares (bitboard : Nat) : List Nat :=
  (List.range 64).foldr
    (fun i acc => if bitboard &&& (1 <<< i) != 0 then (1 <<< i) :: acc else acc) []

/-- Accumulator of `generate_pseudo_legal_moves`: the two static attack masks,
the sliding-piece square list, and the pseudo-legal table built in ascending
square order. -/
structure GenState where
  swa : Nat
  sba : Nat
  dyn : List Nat
  pseudo : List Nat
deriving Repr

/-- One iteration of the square loop of `generate_pseudo_legal_moves`
(lines 313–416). -/
def pseudoStep (b : Chessboard) (st : GenState) (i : Nat) : GenState :=
  let square : Nat := 1 <<< i
  if b.all &&& square != 0 then
    let color := b.white &&& square != 0
    let piece := b.getPiece square
    match piece with
    | .PAWN =>
      let st :=
        match color with
        | true => { st with swa := st.swa ||| shl64 square 7 ||| shl64 square 9 }
        | false => { st with sba := st.sba ||| square >>> 7 ||| square >>> 9 }
      { st with pseudo := st.pseudo ++ [b.generatePawnMoves square] }
    | .BISHOP | .ROOK | .QUEEN =>
      let mask :=
        match piece with
        | .BISHOP => b.generateBishopMoves square b.all
        | .ROOK => b.generateRookMoves square b.all
        | _ => b.generateQueenMoves square b.all
      { st with dyn := st.dyn ++ [i],
                pseudo := st.pseudo ++ [mask &&& not64 (b.getColor color)] }
    | .KNIGHT =>
      let mask := b.generateKnightMoves square
      let st :=
        match color with
        | true => { st with swa := st.swa ||| mask }
        | false => { st with sba := st.sba ||| mask }
      { st with pseudo := st.pseudo ++ [mask &&& not64 (b.getColor color)] }
    | .KING =>
      let mask := b.generateKingMoves square
      match color with
      | true =>
        let st := { st with swa := st.swa ||| mask }
        let mask :=
          if b.turn then
            let mask :=
              if b.castleRights.getD 0 false && b.all &&& WHITE_KING_SIDE_CASTLE == 0 then
                mask ||| (1 <<< 6)
              else mask
            if b.castleRights.getD 1 false && b.all &&& WHITE_QUEEN_SIDE_CASTLE == 0 then
              mask ||| (1 <<< 2)
            else mask
          else mask
        { st with pseudo := st.pseudo ++ [mask &&& not64 (b.getColor color)] }
      | false =>
        let st := { st with sba := st.sba ||| mask }
        let mask :=
          if !b.turn then
            let mask :=
              if b.castleRights.getD 2 false && b.all &&& BLACK_KING_SIDE_CASTLE == 0 then
                mask ||| (1 <<< 62)
              else mask
            if b.castleRights.getD 3 false && b.all &&& BLACK_QUEEN_SIDE_CASTLE == 0 then
              mask ||| (1 <<< 58)
            else mask
          else mask
        { st with pseudo := st.pseudo ++ [mask &&& not64 (b.getColor color)] }
    | .UNKNOWN => { st with pseudo := st.pseudo ++ [0] }
  else
    { st with pseudo := st.pseudo ++ [0] }

/-- Method `generate_pseudo_legal_moves` (lines 313–416): resets the static
attack masks and the sliding-piece list, then fills the pseudo-legal table for
all 64 squares. -/
def generatePseudoLegalMoves (b : Chessboard) : Chessboard :=
  let st := (List.range 64).foldl (pseudoStep b) ⟨0, 0, [], []⟩
  { b with staticWhiteAttackMask := st.swa,
           staticBlackAttackMask := st.sba,
           dynamicPieceSquares := st.dyn,
           pseudoLegalMoves := st.pseudo }

/-- Method `get_attack_mask` (lines 832–862): the opponent's static mask plus
the recomputed rays of every opponent sliding piece over `board`. -/
def getAttackMask (b : Chessboard) (color : Bool) (board : Nat) : Nat :=
  let start :=
    match color with
    | true => b.staticBlackAttackMask
    | false => b.staticWhiteAttackMask
  b.dynamicPieceSquares.foldl
    (fun enemyAttackMask dynamicPiece =>
      let dynamicPieceSquare : Nat := 1 <<< dynamicPiece
      let piece := b.getPiece dynamicPieceSquare
      let dynamicPieceColor := b.white &&& dynamicPieceSquare != 0
      if dynamicPieceColor == color then enemyAttackMask
      else
        match piece with
        | .BISHOP => enemyAttackMask ||| b.generateBishopMoves dynamicPieceSquare board
        | .ROOK => enemyAttackMask ||| b.generateRookMoves dynamicPieceSquare board
        | .QUEEN => enemyAttackMask ||| b.generateQueenMoves dynamicPieceSquare board
        | _ => enemyAttackMask)
    start

/-- Whether the candidate destination `potentialSquare` survives the legality
filter for the origin square numbered `i`: the per-destination body of
`generate_legal_moves` (lines 433–490), which either ORs the destination into
the legal mask or keeps the mask unchanged; this predicate is the condition of
that choice. -/
def destLegal (b : Chessboard) (i potentialSquare : Nat) : Bool :=
  let currentSquare : Nat := 1 <<< i
  let color := b.white &&& currentSquare != 0
  let piece := b.getPiece currentSquare
  let currentBoardWithoutPiece := b.all &&& not64 currentSquare
  let board := currentBoardWithoutPiece ||| potentialSquare
  let enemyAttackMask := b.getAttackMask color board
  match piece with
  | .KING =>
    match color with
    | true =>
      if potentialSquare &&& (1 <<< 6) != 0 then
        enemyAttackMask &&& WHITE_KING_SIDE_CASTLE == 0
      else if potentialSquare &&& (1 <<< 2) != 0 then
        enemyAttackMask &&& WHITE_QUEEN_SIDE_CASTLE == 0
      else enemyAttackMask &&& potentialSquare == 0
    | false =>
      if potentialSquare &&& (1 <<< 62) != 0 then
        enemyAttackMask &&& BLACK_KING_SIDE_CASTLE_SQUARE == 0
      else if potentialSquare &&& (1 <<< 58) != 0 then
        enemyAttackMask &&& BLACK_QUEEN_SIDE_CASTLE_SQUARE == 0
      else enemyAttackMask &&& potentialSquare == 0
  | _ =>
    let king := b.pieces.getD Piece.KING.idx 0 &&& b.getColor color
    enemyAttackMask &&& king == 0

/-- The body of the per-origin loop of `generate_legal_moves` (lines 421–492),
producing the legal mask for the origin square numbered `i`. -/
def legalFilterOne (b : Chessboard) (i : Nat) : Nat :=
  let currentSquare : Nat := 1 <<< i
  let moves := b.pseudoLegalMoves.getD i 0
  if currentSquare &&& b.getColor b.turn == 0 then 0
  else
    (Chessboard.getSquares moves).foldl
      (fun legalMoves potentialSquare =>
        if destLegal b i potentialSquare then legalMoves ||| potentialSquare
        else legalMoves)
      0

/-- Method `generate_legal_moves` (lines 418–493): regenerate the pseudo-legal
table, then filter every origin square. -/
def generateLegalMoves (b : Chessboard) : Chessboard :=
  let b1 := generatePseudoLegalMoves b
  { b1 with legalMoves := (List.range 64).map (legalFilterOne b1) }

end Chessboard

/-- Splitting a character list at every occurrence of `sep`, as Rust
`str::split` does (`"a/b".split('/') = ["a", "b"]`, including empty pieces). -/
def splitChar (sep : Char) : List Char → List (List Char)
  | [] => [[]]
  | c :: cs =>
    if c = sep then [] :: splitChar sep cs
    else
      match splitChar sep cs with
      | g :: gs => (c :: g) :: gs
      | [] => [[c]]

/-- First whitespace-separated token, as Rust
`str::split_whitespace().next()` on a string that has one. -/
def firstToken (cs : List Char) : List Char :=
  (cs.dropWhile Char.isWhitespace).takeWhile (fun c => !c.isWhitespace)

/-- Decimal digits of `n`, most significant first, by repeated division;
`fuel ≥ n + 1` always suffices. -/
def natPrintAux : Nat → Nat → List Char
  | 0, _ => []
  | fuel + 1, n =>
    if n == 0 then []
    else natPrintAux fuel (n / 10) ++ [Char.ofNat (48 + n % 10)]

/-- Decimal rendering of a natural number, as Rust `Display` for integers. -/
def natPrint (n : Nat) : List Char :=
  if n == 0 then ['0'] else natPrintAux (n + 1) n

/-- Numeric value of a digit string (left fold, as integer parsing does). -/
def natParseV (cs : List Char) : Nat :=
  cs.foldl (fun a c => 10 * a + (c.toNat - 48)) 0

/-- Rust `str::parse::<u32>()`, restricted to plain digit strings: `none`
models the parse error that `load_fen` unwraps. -/
def natParseQ (cs : List Char) : Option Nat :=
  if cs ≠ [] ∧ cs.all Char.isDigit then some (natParseV cs) else none

/-- Ongoing placement state of `load_fen`: the two color masks and the six
piece boards. -/
structure PlaceSt where
  white : Nat
  black : Nat
  pieces : List Nat
deriving DecidableEq, Repr

/-- One piece letter of a FEN rank placed onto `square` (lines 562–609 of
`lib.rs`); unrecognized letters place nothing. -/
def placeChar (st : PlaceSt) (square : Nat) (c : Char) : PlaceSt :=
  let color := c.isUpper
  let put (p : Piece) : PlaceSt :=
    let st := { st with pieces := st.pieces.set p.idx (st.pieces.getD p.idx 0 ||| square) }
    match color with
    | true => { st with white := st.white ||| square }
    | false => { st with black := st.black ||| square }
  match c.toLower with
  | 'p' => put .PAWN
  | 'n' => put .KNIGHT
  | 'b' => put .BISHOP
  | 'r' => put .ROOK
  | 'q' => put .QUEEN
  | 'k' => put .KING
  | _ => st

/-- The character loop of `load_fen` over one rank string (lines 556–612):
digits skip files, letters place pieces at `1 << (56 - index * 8 + file)`, and
the loop stops as soon as `file > 7`. -/
def rankParse (idx : Nat) : List Char → Nat → PlaceSt → PlaceSt
  | [], _, st => st
  | c :: cs, file, st =>
    if file > 7 then st
    else if c.isDigit then rankParse idx cs (file + (c.toNat - 48)) st
    else
      let square : Nat := 1 <<< (56 - idx * 8 + file)
      rankParse idx cs (file + 1) (placeChar st square c)

/-- The castling-rights character loop of `load_fen` (lines 540–548). -/
def castleFold (rights : List Bool) (cs : List Char) : List Bool :=
  cs.foldl
    (fun r c =>
      if c = 'K' then r.set 0 true
      else if c = 'Q' then r.set 1 true
      else if c = 'k' then r.set 2 true
      else if c = 'q' then r.set 3 true
      else r)
    rights

/-- Intermediate state of `load_fen`'s rank loop. -/
structure LoadSt where
  place : PlaceSt
  turn : Bool
  castleRights : List Bool
  enPassantSquare : Option Nat
  halfMove : Nat
  fullMove : Nat
deriving Repr

/-- One rank of `load_fen` (lines 535–613): the 8th chunk first yields the
space-separated trailing fields, then every chunk runs the placement loop. -/
def loadStep (st : LoadSt) (p : Nat × List Char) : LoadSt :=
  let index := p.1
  let rank := p.2
  let st :=
    if index == 7 then
      let parts := splitChar ' ' rank
      { st with
        turn := parts.getD 1 [] == ['w']
        castleRights := castleFold st.castleRights (parts.getD 2 [])
        enPassantSquare :=
          if parts.getD 3 [] != ['-'] then
            some (squareOfName (String.mk (parts.getD 3 [])))
          else st.enPassantSquare
        halfMove := (natParseQ (parts.getD 4 [])).getD 0
        fullMove := (natParseQ (parts.getD 5 [])).getD 0 }
    else st
  { st with place := rankParse index rank 0 st.place }

/-- Associated function `load_fen` (lines 523–635). -/
def loadFen (fen : String) : Chessboard :=
  let st : LoadSt :=
    (splitChar '/' fen.data).enum.foldl loadStep
      ⟨⟨0, 0, [0, 0, 0, 0, 0, 0]⟩, true, [false, false, false, false], none, 0, 0⟩
  { white := st.place.white
    black := st.place.black
    staticWhiteAttackMask := 0
    staticBlackAttackMask := 0
    pieces := st.place.pieces
    pseudoLegalMoves := []
    dynamicPieceSquares := []
    legalMoves := []
    turn := st.turn
    castleRights := st.castleRights
    enPassantSquare := st.enPassantSquare
    halfMove := st.halfMove
    fullMove := st.fullMove
    boardRepetitions := [(String.mk (firstToken fen.data), 1)]
    history := [] }

/-- Method `new` (lines 52–58): start position plus legal-move generation. -/
def Chessboard.new : Chessboard :=
  (loadFen START_FEN).generateLegalMoves

/-- Associated function `from_fen` (lines 67–73). -/
def fromFen (fen : String) : Chessboard :=
  (loadFen fen).generateLegalMoves

/-- FEN letter of an occupied square, `none` for an empty one (the match arms
of `get_fen`, lines 651–715). -/
def pieceChar (piece : Piece) (color : Bool) : Option Char :=
  match piece, color with
  | .PAWN, true => some 'P'
  | .PAWN, false => some 'p'
  | .KNIGHT, true => some 'N'
  | .KNIGHT, false => some 'n'
  | .BISHOP, true => some 'B'
  | .BISHOP, false => some 'b'
  | .ROOK, true => some 'R'
  | .ROOK, false => some 'r'
  | .QUEEN, true => some 'Q'
  | .QUEEN, false => some 'q'
  | .KING, true => some 'K'
  | .KING, false => some 'k'
  | .UNKNOWN, _ => none

/-- The file loop of `get_fen` over one rank (lines 647–719), carrying the
run-length counter of consecutive empty files. -/
def fenRankLoop (b : Chessboard) (base : Nat) : List Nat → Nat → List Char
  | [], empty => if empty > 0 then natPrint empty else []
  | f :: fs, empty =>
    let square : Nat := 1 <<< (base + f)
    match pieceChar (b.getPiece square) (b.white &&& square != 0) with
    | some ch => (if empty > 0 then natPrint empty else []) ++ ch :: fenRankLoop b base fs 0
    | none => fenRankLoop b base fs (empty + 1)

/-- Joining pieces with a separator character between consecutive pieces, as
`get_fen` pushes `/` after every rank but the last. -/
def joinSep (sep : Char) : List (List Char) → List Char
  | [] => []
  | [a] => a
  | a :: rest => a ++ sep :: joinSep sep rest

/-- The piece-placement field of `get_fen`: the eight rank strings joined by
`/`. -/
def fenPlacement (b : Chessboard) : List Char :=
  joinSep '/' ((List.range 8).map (fun rank => fenRankLoop b (56 - rank * 8) (List.range 8) 0))

/-- The castling-rights field of `get_fen` (lines 727–744). -/
def castleString (b : Chessboard) : List Char :=
  let s :=
    (if b.castleRights.getD 0 false then ['K'] else []) ++
    (if b.castleRights.getD 1 false then ['Q'] else []) ++
    (if b.castleRights.getD 2 false then ['k'] else []) ++
    (if b.castleRights.getD 3 false then ['q'] else [])
  if s.isEmpty then ['-'] else s

/-- Method `get_fen` (lines 644–755). -/
def getFen (b : Chessboard) : String :=
  let turnStr := if b.turn then ['w'] else ['b']
  let ep :=
    match b.enPassantSquare with
    | some square => (squareName (squareOfMask square)).data
    | none => ['-']
  String.mk
    (fenPlacement b ++ ' ' :: turnStr ++ ' ' :: castleString b ++ ' ' :: ep ++
      ' ' :: natPrint b.halfMove ++ ' ' :: natPrint b.fullMove)

/-- Scanner state of `SanMove::parse`: the mutable locals of lines 57–61 of
`chess_move.rs`. -/
structure ParseSt where
  toSq : Nat
  fromSq : Nat
  piece : Piece
  promotion : Option Piece
  castling : Option CastlingType
deriving DecidableEq, Repr

/-- The inner castling loop of `SanMove::parse` (lines 75–111): consumes
`-O`/`-0` groups matching the opening `target` character and yields the
castling kind together with the unconsumed characters. -/
def castleLoop (target : Char) :
    List Char → Option CastlingType → Except String (Option CastlingType × List Char)
  | '-' :: c :: rest, cast =>
    if c = target then
      match cast with
      | none => castleLoop target rest (some .KingSide)
      | some .KingSide => castleLoop target rest (some .QueenSide)
      | some .QueenSide => .error "Invalid castling move"
    else .error "Invalid castling move"
  | ['-'], cast =>
    if cast.isNone then .error "Invalid castling move" else .ok (cast, [])
  | cs, cast =>
    if cast.isNone then .error "Invalid castling move" else .ok (cast, cs)

/-- File mask chosen by a lone file letter (lines 168–178). -/
def fileMaskOf (c : Char) : Nat :=
  if c = 'a' then FILE_A
  else if c = 'b' then FILE_B
  else if c = 'c' then FILE_C
  else if c = 'd' then FILE_D
  else if c = 'e' then FILE_E
  else if c = 'f' then FILE_F
  else if c = 'g' then FILE_G
  else FILE_H

/-- Rank mask chosen by a lone rank digit (lines 183–193). -/
def rankMaskOf (c : Char) : Nat :=
  if c = '1' then RANK_1
  else if c = '2' then RANK_2
  else if c = '3' then RANK_3
  else if c = '4' then RANK_4
  else if c = '5' then RANK_5
  else if c = '6' then RANK_6
  else if c = '7' then RANK_7
  else RANK_8

/-- The main scanning loop of `SanMove::parse` (lines 63–210).  Every
iteration consumes at least one character, so fuel `length + 1` never runs
out; the `fuel = 0` branch is unreachable. -/
def parseLoop : Nat → List Char → ParseSt → Except String ParseSt
  | 0, _, _ => .error "Invalid character"
  | _ + 1, [], st => .ok st
  | fuel + 1, c :: rest, st =>
    if c = 'x' ∨ c = '+' ∨ c = '#' ∨ c = '!' ∨ c = '?' ∨ c = ' ' then
      parseLoop fuel rest st
    else if c = 'O' ∨ c = '0' then
      let st := if st.piece = .UNKNOWN then { st with piece := .KING } else st
      match castleLoop c rest st.castling with
      | .error e => .error e
      | .ok (cast, remaining) => parseLoop fuel remaining { st with castling := cast }
    else if c = '=' then
      if st.piece ≠ .PAWN ∨ st.toSq = 0 then .error "Invalid promotion piece"
      else
        match rest with
        | [] => parseLoop fuel [] st
        | p :: rest2 =>
          if p = 'N' then parseLoop fuel rest2 { st with promotion := some .KNIGHT }
          else if p = 'B' then parseLoop fuel rest2 { st with promotion := some .BISHOP }
          else if p = 'R' then parseLoop fuel rest2 { st with promotion := some .ROOK }
          else if p = 'Q' then parseLoop fuel rest2 { st with promotion := some .QUEEN }
          else .error "Invalid promotion piece"
    else if 'a' ≤ c ∧ c ≤ 'h' then
      let rest :=
        if c = 'e' then
          match rest with
          | '.' :: tail =>
            match tail with
            | 'p' :: tail2 =>
              match tail2 with
              | '.' :: tail3 => tail3
              | _ => tail2
            | _ => tail
          | _ => rest
        else rest
      let st := if st.piece = .UNKNOWN then { st with piece := .PAWN } else st
      match rest with
      | [] => parseLoop fuel [] st
      | d :: rest2 =>
        if d.isDigit then
          let file : Nat := c.toNat - 97
          let rank : Nat := ((d.toNat - 48) + (2 ^ 64 - 1)) % 2 ^ 64
          if rank > 7 then .error "Invalid rank"
          else parseLoop fuel rest2 { st with toSq := 1 <<< (file + rank * 8) }
        else
          parseLoop fuel rest { st with fromSq := fileMaskOf c }
    else if '1' ≤ c ∧ c ≤ '8' then
      parseLoop fuel rest { st with fromSq := rankMaskOf c }
    else if c = 'N' then parseLoop fuel rest { st with piece := .KNIGHT }
    else if c = 'B' then parseLoop fuel rest { st with piece := .BISHOP }
    else if c = 'R' then parseLoop fuel rest { st with piece := .ROOK }
    else if c = 'Q' then parseLoop fuel rest { st with piece := .QUEEN }
    else if c = 'K' then parseLoop fuel rest { st with piece := .KING }
    else .error "Invalid character"

/-- Associated function `SanMove::parse` (lines 55–230): the scan followed by
the destination/disambiguation normalization and the default-queen promotion. -/
def SanMove.parse (san : String) : Except String SanMove :=
  match parseLoop (san.data.length + 1) san.data ⟨0, 0, .UNKNOWN, none, none⟩ with
  | .error e => .error e
  | .ok st =>
    let toSq := if st.toSq = 0 then st.fromSq else st.toSq
    let fromSq := if st.toSq = 0 then 0 else st.fromSq
    let promotion :=
      if st.piece = .PAWN ∧ (toSq &&& RANK_8 ≠ 0 ∨ toSq &&& RANK_1 ≠ 0) ∧
          st.promotion = none then
        some Piece.QUEEN
      else st.promotion
    .ok ⟨san, st.piece, toSq, fromSq, promotion, st.castling⟩

/-- Update of the repetition table: `entry(key).and_modify(+1).or_insert(1)`
on the association-list embedding of the hash map. -/
def repUpdate (reps : List (String × Nat)) (key : String) : List (String × Nat) :=
  if reps.any (fun e => e.1 = key) then
    reps.map (fun e => if e.1 = key then (e.1, e.2 + 1) else e)
  else reps ++ [(key, 1)]

namespace Chessboard

/-- The four castling blocks of `move_to` (lines 902–1021): `some` of the
mutated board when the table allows the castle, `none` when nothing happens. -/
def applyCastle (b : Chessboard) (castling : CastlingType) : Option Chessboard :=
  match castling, b.turn with
  | .KingSide, true =>
    let legalMoves := b.legalMoves.getD 4 0
    if legalMoves &&& (1 <<< 6) != 0 then
      let e1 : Nat := 1 <<< 4
      let g1 : Nat := 1 <<< 6
      let f1 : Nat := 1 <<< 5
      let h1 : Nat := 1 <<< 7
      some { b with
        halfMove := b.halfMove + 1
        pieces := ((b.pieces.set 5 ((b.pieces.getD 5 0 ^^^ e1) ||| g1)).set 3
          (((b.pieces.set 5 ((b.pieces.getD 5 0 ^^^ e1) ||| g1)).getD 3 0 ^^^ h1) ||| f1))
        white := (((b.white ^^^ e1) ||| g1) ^^^ h1) ||| f1
        turn := !b.turn
        castleRights := (b.castleRights.set 0 false).set 1 false }
    else none
  | .KingSide, false =>
    let legalMoves := b.legalMoves.getD 60 0
    if legalMoves &&& (1 <<< 62) != 0 then
      let e8 : Nat := 1 <<< 60
      let g8 : Nat := 1 <<< 62
      let f8 : Nat := 1 <<< 61
      let h8 : Nat := 1 <<< 63
      some { b with
        halfMove := b.halfMove + 1
        pieces := ((b.pieces.set 5 ((b.pieces.getD 5 0 ^^^ e8) ||| g8)).set 3
          (((b.pieces.set 5 ((b.pieces.getD 5 0 ^^^ e8) ||| g8)).getD 3 0 ^^^ h8) ||| f8))
        black := (((b.black ^^^ e8) ||| g8) ^^^ h8) ||| f8
        turn := !b.turn
        fullMove := b.fullMove + 1
        castleRights := (b.castleRights.set 2 false).set 3 false }
    else none
  | .QueenSide, true =>
    let legalMoves := b.legalMoves.getD 4 0
    if legalMoves &&& (1 <<< 2) != 0 then
      let e1 : Nat := 1 <<< 4
      let c1 : Nat := 1 <<< 2
      let a1 : Nat := 1 <<< 0
      let d1 : Nat := 1 <<< 3
      some { b with
        halfMove := b.halfMove + 1
        pieces := ((b.pieces.set 5 ((b.pieces.getD 5 0 ^^^ e1) ||| c1)).set 3
          (((b.pieces.set 5 ((b.pieces.getD 5 0 ^^^ e1) ||| c1)).getD 3 0 ^^^ a1) ||| d1))
        white := (((b.white ^^^ e1) ||| c1) ^^^ a1) ||| d1
        turn := !b.turn
        castleRights := (b.castleRights.set 0 false).set 1 false }
    else none
  | .QueenSide, false =>
    let legalMoves := b.legalMoves.getD 60 0
    if legalMoves &&& (1 <<< 58) != 0 then
      let e8 : Nat := 1 <<< 60
      let c8 : Nat := 1 <<< 58
      let a8 : Nat := 1 <<< 56
      let d8 : Nat := 1 <<< 59
      some { b with
        halfMove := b.halfMove + 1
        pieces := ((b.pieces.set 5 ((b.pieces.getD 5 0 ^^^ e8) ||| c8)).set 3
          (((b.pieces.set 5 ((b.pieces.getD 5 0 ^^^ e8) ||| c8)).getD 3 0 ^^^ a8) ||| d8))
        black := (((b.black ^^^ e8) ||| c8) ^^^ a8) ||| d8
        turn := !b.turn
        fullMove := b.fullMove + 1
        castleRights := (b.castleRights.set 2 false).set 3 false }
    else none

/-- The promotion-move mutation block of `move_to` (lines 1036–1093), applied
once a matching origin and destination are found. -/
def promoApplyAt (b : Chessboard) (vsan : SanMove) (promotionPiece : Piece)
    (fromSquare validSquare : Nat) : Chessboard :=
  let piece := b.getPiece fromSquare
  let color := b.white &&& fromSquare != 0
  let b := { b with halfMove := 0 }
  let before := getFen b
  let b := { b with pieces := b.pieces.set piece.idx (b.pieces.getD piece.idx 0 ^^^ fromSquare) }
  let (b, captured) :=
    match color with
    | true =>
      let b := { b with white := (b.white ^^^ fromSquare) ||| validSquare }
      if b.black &&& validSquare != 0 then
        let capturedPiece := b.getPiece validSquare
        ({ b with
            pieces := b.pieces.set capturedPiece.idx
              (b.pieces.getD capturedPiece.idx 0 ^^^ validSquare)
            black := b.black ^^^ validSquare }, some capturedPiece)
      else (b, none)
    | false =>
      let b := { b with black := (b.black ^^^ fromSquare) ||| validSquare }
      if b.white &&& validSquare != 0 then
        let capturedPiece := b.getPiece validSquare
        ({ b with
            pieces := b.pieces.set capturedPiece.idx
              (b.pieces.getD capturedPiece.idx 0 ^^^ validSquare)
            white := b.white ^^^ validSquare }, some capturedPiece)
      else (b, none)
  let b := { b with
    pieces := b.pieces.set promotionPiece.idx
      (b.pieces.getD promotionPiece.idx 0 ||| validSquare) }
  let after := getFen b
  let b := { b with boardRepetitions := repUpdate b.boardRepetitions after }
  let b := { b with
    history := b.history ++ [ChessMove.new vsan b.turn before after fromSquare captured] }
  { b with turn := !b.turn }

/-- The origin filter of the promotion search (lines 1023–1034 together with
the `Piece::PAWN` arm restriction of lines 1034–1098): the first matching
origin/destination pair at square number `i`, if any. -/
def promoMatch (b : Chessboard) (vsan : SanMove) (i : Nat) : Option (Nat × Nat) :=
  let fromSquare : Nat := 1 <<< i
  let legalMoves := b.legalMoves.getD i 0
  let piece := b.getPiece fromSquare
  let color := b.white &&& fromSquare != 0
  if b.turn ≠ color ∨ piece ≠ vsan.piece ∨ (vsan.fromSq > 0 ∧ fromSquare &&& vsan.fromSq = 0) then
    none
  else
    match piece with
    | .PAWN =>
      match (Chessboard.getSquares legalMoves).find? (fun v => v &&& vsan.toSq != 0) with
      | some v => some (fromSquare, v)
      | none => none
    | _ => none

/-- The ordinary-move mutation block of `move_to` (lines 1113–1283), applied
once a matching origin and destination are found. -/
def ordApplyAt (b : Chessboard) (vsan : SanMove) (fromSquare validSquare : Nat) : Chessboard :=
  let piece := b.getPiece fromSquare
  let before := getFen b
  let epOld := b.enPassantSquare
  let b := { b with enPassantSquare := none }
  let b :=
    match epOld with
    | some enPassantSquare =>
      if validSquare = enPassantSquare ∧ piece = Piece.PAWN then
        let b := { b with
          pieces := b.pieces.set 0 (b.pieces.getD 0 0 ^^^ enPassantSquare) }
        match b.turn with
        | true =>
          { b with
            black := b.black ^^^ (enPassantSquare >>> 8)
            pieces := b.pieces.set 0 (b.pieces.getD 0 0 ^^^ (enPassantSquare >>> 8)) }
        | false =>
          { b with
            white := b.white ^^^ shl64 enPassantSquare 8
            pieces := b.pieces.set 0 (b.pieces.getD 0 0 ^^^ shl64 enPassantSquare 8) }
      else b
    | none => b
  let b :=
    match piece with
    | .KING =>
      match b.turn with
      | true => { b with castleRights := (b.castleRights.set 0 false).set 1 false }
      | false => { b with castleRights := (b.castleRights.set 2 false).set 3 false }
    | .ROOK =>
      match b.turn with
      | true =>
        if fromSquare &&& (1 <<< 7) != 0 then
          { b with castleRights := b.castleRights.set 0 false }
        else if fromSquare &&& (1 <<< 0) != 0 then
          { b with castleRights := b.castleRights.set 1 false }
        else b
      | false =>
        if fromSquare &&& (1 <<< 63) != 0 then
          { b with castleRights := b.castleRights.set 2 false }
        else if fromSquare &&& (1 <<< 56) != 0 then
          { b with castleRights := b.castleRights.set 3 false }
        else b
    | .PAWN =>
      match b.turn with
      | true =>
        if fromSquare &&& RANK_2 != 0 then
          if validSquare &&& RANK_4 != 0 then
            let blackPawns := b.pieces.getD 0 0 &&& b.black
            let b :=
              if validSquare &&& FILE_A == 0 && blackPawns &&& (validSquare >>> 1) != 0 then
                { b with enPassantSquare := some (validSquare >>> 8) }
              else b
            if validSquare &&& FILE_H == 0 && blackPawns &&& shl64 validSquare 1 != 0 then
              { b with enPassantSquare := some (validSquare >>> 8) }
            else b
          else b
        else b
      | false =>
        if fromSquare &&& RANK_7 != 0 then
          if validSquare &&& RANK_5 != 0 then
            let whitePawns := b.pieces.getD 0 0 &&& b.white
            let b :=
              if validSquare &&& FILE_A == 0 && whitePawns &&& (validSquare >>> 1) != 0 then
                { b with enPassantSquare := some (shl64 validSquare 8) }
              else b
            if validSquare &&& FILE_H == 0 && whitePawns &&& shl64 validSquare 1 != 0 then
              { b with enPassantSquare := some (shl64 validSquare 8) }
            else b
          else b
        else b
    | _ => b
  let b := { b with pieces := b.pieces.set piece.idx (b.pieces.getD piece.idx 0 ^^^ fromSquare) }
  let (b, captured) :=
    match b.turn with
    | true =>
      let b := { b with white := (b.white ^^^ fromSquare) ||| validSquare }
      if b.black &&& validSquare != 0 then
        let capturedPiece := b.getPiece validSquare
        ({ b with
            pieces := b.pieces.set capturedPiece.idx
              (b.pieces.getD capturedPiece.idx 0 ^^^ validSquare)
            black := b.black ^^^ validSquare
            halfMove := 0 }, some capturedPiece)
      else
        match piece with
        | .PAWN => ({ b with halfMove := 0 }, none)
        | _ => ({ b with halfMove := b.halfMove + 1 }, none)
    | false =>
      let b := { b with black := (b.black ^^^ fromSquare) ||| validSquare }
      let (b, captured) :=
        if b.white &&& validSquare != 0 then
          let capturedPiece := b.getPiece validSquare
          ({ b with
              pieces := b.pieces.set capturedPiece.idx
                (b.pieces.getD capturedPiece.idx 0 ^^^ validSquare)
              white := b.white ^^^ validSquare
              halfMove := 0 }, some capturedPiece)
        else
          match piece with
          | .PAWN => ({ b with halfMove := 0 }, none)
          | _ => ({ b with halfMove := b.halfMove + 1 }, none)
      ({ b with fullMove := b.fullMove + 1 }, captured)
  let b := { b with pieces := b.pieces.set piece.idx (b.pieces.getD piece.idx 0 ||| validSquare) }
  let after := getFen b
  let b := { b with
    boardRepetitions := repUpdate b.boardRepetitions (String.mk (firstToken after.data)) }
  let b := { b with
    history := b.history ++ [ChessMove.new vsan b.turn before after fromSquare captured] }
  { b with turn := !b.turn }

/-- The origin filter of the ordinary-move search (lines 1102–1114): the first
matching origin/destination pair at square number `i`, if any. -/
def ordMatch (b : Chessboard) (vsan : SanMove) (i : Nat) : Option (Nat × Nat) :=
  let fromSquare : Nat := 1 <<< i
  let legalMoves := b.legalMoves.getD i 0
  let piece := b.getPiece fromSquare
  let color := b.white &&& fromSquare != 0
  if b.turn ≠ color ∨ piece ≠ vsan.piece ∨ (vsan.fromSq > 0 ∧ fromSquare &&& vsan.fromSq = 0) then
    none
  else
    match (Chessboard.getSquares legalMoves).find? (fun v => v &&& vsan.toSq != 0) with
    | some v => some (fromSquare, v)
    | none => none

/-- Resolution of a parsed descriptor against the current tables (the body of
`move_to`, lines 875–1296): `some` of the mutated board when a move applies
(`has_moved`), `none` when nothing matches and nothing is mutated.  The
searches of the source iterate the hash map in unspecified order; here they
run in ascending square order. -/
def moveToCore (b : Chessboard) (vsanIn : SanMove) : Option Chessboard :=
  let toSquare := vsanIn.toSq
  if vsanIn.castling.isSome ∨
      (Piece.KING = vsanIn.piece ∧
        ((b.turn = true ∧
            ((b.castleRights.getD 0 false ∧ toSquare &&& WHITE_KING_SIDE_CASTLE_SQUARE ≠ 0) ∨
              (b.castleRights.getD 1 false ∧ toSquare &&& WHITE_QUEEN_SIDE_CASTLE_SQUARE ≠ 0))) ∨
          (b.turn = false ∧
            ((b.castleRights.getD 2 false ∧ toSquare &&& BLACK_KING_SIDE_CASTLE_SQUARE ≠ 0) ∨
              (b.castleRights.getD 3 false ∧ toSquare &&& BLACK_QUEEN_SIDE_CASTLE_SQUARE ≠ 0))))) then
    let castling :=
      match vsanIn.castling with
      | some castling => castling
      | none =>
        if toSquare &&& WHITE_KING_SIDE_CASTLE_SQUARE ≠ 0 ∨
            toSquare &&& BLACK_KING_SIDE_CASTLE_SQUARE ≠ 0 then
          CastlingType.KingSide
        else CastlingType.QueenSide
    b.applyCastle castling
  else
    match vsanIn.promotion with
    | some promotionPiece =>
      match (List.range 64).findSome? (promoMatch b vsanIn) with
      | some fv => some (promoApplyAt b vsanIn promotionPiece fv.1 fv.2)
      | none => none
    | none =>
      match (List.range 64).findSome? (ordMatch b vsanIn) with
      | some fv => some (ordApplyAt b vsanIn fv.1 fv.2)
      | none => none

/-- Method `move_to` (lines 871–1297): parse, resolve, and on success
regenerate the legal-move table; parse failures and unresolved descriptors
leave the board untouched (the source prints and returns). -/
def moveTo (b : Chessboard) (san : String) : Chessboard :=
  match SanMove.parse san with
  | .error _ => b
  | .ok vsan =>
    match moveToCore b vsan with
    | some b2 => b2.generateLegalMoves
    | none => b

/-- The SAN-like rendering letter of `legal_moves` (lines 1395–1402). -/
def pieceLetterOf (piece : Piece) : Option Char :=
  match piece with
  | .KING => some 'K'
  | .QUEEN => some 'Q'
  | .ROOK => some 'R'
  | .BISHOP => some 'B'
  | .KNIGHT => some 'N'
  | _ => none

/-- Method `legal_moves` (lines 1390–1412): every entry of the legal table
rendered as optional piece letter plus destination square name, in ascending
origin order (the source iterates the hash map in unspecified order). -/
def legalMovesList (b : Chessboard) : List String :=
  (List.range 64).foldl
    (fun acc i =>
      let square : Nat := 1 <<< i
      let moves := b.legalMoves.getD i 0
      acc ++ (Chessboard.getSquares moves).map (fun sq =>
        match pieceLetterOf (b.getPiece square) with
        | some p => String.mk (p :: (squareName (squareOfMask sq)).data)
        | none => squareName (squareOfMask sq)))
    []

end Chessboard

/-- The pawn-destination shape asserted by claim C3, written from the claim's
own words for comparison with `generate_pawn_moves`: a one- or two-square
straight forward advance, or a square diagonally forward-adjacent (one file
left or right, one rank ahead, no wrap-around across the a/h boundary). -/
def claimedPawnShape (white : Bool) (src dst : Nat) : Bool :=
  let srcFile := src % 8
  let srcRank := src / 8
  let dstFile := dst % 8
  let dstRank := dst / 8
  match white with
  | true =>
    (dstFile == srcFile && (dstRank == srcRank + 1 || dstRank == srcRank + 2)) ||
    (dstRank == srcRank + 1 && (dstFile == srcFile + 1 || dstFile + 1 == srcFile))
  | false =>
    (dstFile == srcFile && (dstRank + 1 == srcRank || dstRank + 2 == srcRank)) ||
    (dstRank + 1 == srcRank && (dstFile == srcFile + 1 || dstFile + 1 == srcFile))

/-- Whether a SAN input resolves to an applied move on `b`: the parse succeeds
and one of the three resolution branches of `move_to` finds a legal
origin/destination pair (`has_moved` in the source). -/
def moveResolves (b : Chessboard) (san : String) : Bool :=
  match SanMove.parse san with
  | .error _ => false
  | .ok vsan => (b.moveToCore vsan).isSome

end WChess


/-! ### FEN round-trip notions (spec C6) -/

namespace WChess

/-- Index-to-piece translation for the `pieces` array. -/
def pieceOfIdx (k : Nat) : Piece :=
  if k = 0 then .PAWN
  else if k = 1 then .BISHOP
  else if k = 2 then .KNIGHT
  else if k = 3 then .ROOK
  else if k = 4 then .QUEEN
  else if k = 5 then .KING
  else .UNKNOWN

/-- Total variant of `pieceChar` for occupied cells. -/
def pieceCharD : Piece → Bool → Char
  | .PAWN, true => 'P'
  | .PAWN, false => 'p'
  | .KNIGHT, true => 'N'
  | .KNIGHT, false => 'n'
  | .BISHOP, true => 'B'
  | .BISHOP, false => 'b'
  | .ROOK, true => 'R'
  | .ROOK, false => 'r'
  | .QUEEN, true => 'Q'
  | .QUEEN, false => 'q'
  | .KING, true => 'K'
  | .KING, false => 'k'
  | .UNKNOWN, _ => '?'

/-- The board cell encoded by one FEN placement letter (`none` for letters
`load_fen` ignores). -/
def cellOfChar (c : Char) : Option (Piece × Bool) :=
  let color := c.isUpper
  match c.toLower with
  | 'p' => some (.PAWN, color)
  | 'n' => some (.KNIGHT, color)
  | 'b' => some (.BISHOP, color)
  | 'r' => some (.ROOK, color)
  | 'q' => some (.QUEEN, color)
  | 'k' => some (.KING, color)
  | _ => none

/-- The cell a board holds at square number `j`, read the way `get_fen` reads
it: the first matching piece board and the white-occupancy test. -/
def cellOf (b : Chessboard) (j : Nat) : Option (Piece × Bool) :=
  match b.getPiece (1 <<< j) with
  | .UNKNOWN => none
  | p => some (p, b.white &&& (1 <<< j) != 0)

/-- The run-length printing loop of a FEN rank at cell level. -/
def printLoop : List (Option (Piece × Bool)) → Nat → List Char
  | [], empty => if empty > 0 then natPrint empty else []
  | none :: cells, empty => printLoop cells (empty + 1)
  | some (p, col) :: cells, empty =>
    (if empty > 0 then natPrint empty else []) ++ pieceCharD p col :: printLoop cells 0

/-- The cell sequence denoted by a FEN rank string: digits denote runs of
empty cells, letters denote occupied (or, for unrecognized letters, skipped)
cells. -/
def rankToContent : List Char → List (Option (Piece × Bool))
  | [] => []
  | c :: cs =>
    if c.isDigit then List.replicate (c.toNat - 48) none ++ rankToContent cs
    else cellOfChar c :: rankToContent cs

/-- Placing one optional cell onto square number `m` of the placement state. -/
def applyCell (st : PlaceSt) (m : Nat) : Option (Piece × Bool) → PlaceSt
  | none => st
  | some (p, col) =>
    let st := { st with pieces := st.pieces.set p.idx (st.pieces.getD p.idx 0 ||| (1 <<< m)) }
    match col with
    | true => { st with white := st.white ||| (1 <<< m) }
    | false => { st with black := st.black ||| (1 <<< m) }

/-- Placing a cell sequence onto consecutive squares `base + pos`,
`base + pos + 1`, …. -/
def applyCells (base : Nat) : List (Option (Piece × Bool)) → Nat → PlaceSt → PlaceSt
  | [], _, st => st
  | cell :: cells, pos, st => applyCells base cells (pos + 1) (applyCell st (base + pos) cell)

/-- The letters `load_fen` places pieces for. -/
def isPieceLetterB (c : Char) : Bool :=
  c ∈ ['p', 'n', 'b', 'r', 'q', 'k', 'P', 'N', 'B', 'R', 'Q', 'K']

/-- Validity scan of one FEN rank string: piece letters and digits `1`–`8`
only, no two adjacent digits, file counts summing to exactly 8.  `lastD`
remembers whether the previous character was a digit and `n` the files
consumed so far. -/
def validRankAux : List Char → Bool → Nat → Bool
  | [], _, n => n == 8
  | c :: cs, lastD, n =>
    if isPieceLetterB c then validRankAux cs false (n + 1)
    else if 49 ≤ c.toNat ∧ c.toNat ≤ 56 then
      !lastD && validRankAux cs true (n + (c.toNat - 48))
    else false

/-- Validity of one FEN rank string. -/
def validRankB (r : List Char) : Bool := validRankAux r false 0

/-- The sixteen canonical castling-availability fields. -/
def validCastleB (cs : List Char) : Bool :=
  cs ∈ [['-'], ['K'], ['Q'], ['k'], ['q'], ['K', 'Q'], ['K', 'k'], ['K', 'q'],
    ['Q', 'k'], ['Q', 'q'], ['k', 'q'], ['K', 'Q', 'k'], ['K', 'Q', 'q'],
    ['K', 'k', 'q'], ['Q', 'k', 'q'], ['K', 'Q', 'k', 'q']]

/-- Canonical decimal numeral: nonempty, digits only, no leading zero. -/
def validNumB (cs : List Char) : Bool :=
  !cs.isEmpty && cs.all Char.isDigit && (cs.headD '0' != '0' || cs == ['0'])

/-- Canonical syntactically valid FEN whose en-passant field is `-`, with the
clock fields inside the `u32` range `load_fen` parses into. -/
def validFenNoEp (s : String) : Bool :=
  let parts := splitChar '/' s.data
  parts.length == 8 &&
  ((parts.take 7).all validRankB) &&
  (let fieldParts := splitChar ' ' (parts.getD 7 [])
   fieldParts.length == 6 &&
   validRankB (fieldParts.getD 0 []) &&
   (fieldParts.getD 1 [] == ['w'] || fieldParts.getD 1 [] == ['b']) &&
   validCastleB (fieldParts.getD 2 []) &&
   fieldParts.getD 3 [] == ['-'] &&
   validNumB (fieldParts.getD 4 []) && decide (natParseV (fieldParts.getD 4 []) < 2 ^ 32) &&
   validNumB (fieldParts.getD 5 []) && decide (natParseV (fieldParts.getD 5 []) < 2 ^ 32))

/-- FEN-visible well-formedness of a position: the piece boards partition the
occupancy of the two disjoint color masks, every mask fits in 64 bits, the
rights list has its four entries, and the clocks fit the `u32` fields. -/
def WFPos (b : Chessboard) : Prop :=
  b.pieces.length = 6 ∧
  b.castleRights.length = 4 ∧
  b.white &&& b.black = 0 ∧
  b.white ||| b.black = b.pieces.foldl (fun a x => a ||| x) 0 ∧
  (∀ k1, k1 < 6 → ∀ k2, k2 < 6 → k1 ≠ k2 →
    b.pieces.getD k1 0 &&& b.pieces.getD k2 0 = 0) ∧
  b.white < 2 ^ 64 ∧ b.black < 2 ^ 64 ∧
  (∀ k, k < 6 → b.pieces.getD k 0 < 2 ^ 64) ∧
  b.halfMove < 2 ^ 32 ∧ b.fullMove < 2 ^ 32

instance (b : Chessboard) : Decidable (WFPos b) := by
  unfold WFPos
  infer_instance

/-- Whether a cell holds a white piece. -/
def cellWhiteB : Option (Piece × Bool) → Bool
  | some (_, true) => true
  | _ => false

/-- Whether a cell holds a black piece. -/
def cellBlackB : Option (Piece × Bool) → Bool
  | some (_, false) => true
  | _ => false

/-- Whether a cell holds the piece with array index `k`. -/
def cellPieceB (k : Nat) : Option (Piece × Bool) → Bool
  | some (p, _) => p.idx == k
  | none => false

/-- A cell never holds the `UNKNOWN` marker. -/
def properCell : Option (Piece × Bool) → Prop
  | some (p, _) => p ≠ Piece.UNKNOWN
  | none => True

/-- The bit contributed at square `j` by a cell run starting at `base + pos`,
measured by a cell predicate. -/
def cellsBitAt (f : Option (Piece × Bool) → Bool) (base : Nat) :
    List (Option (Piece × Bool)) → Nat → Nat → Bool
  | [], _, _ => false
  | cell :: cells, pos, j =>
    (j == base + pos && f cell) || cellsBitAt f base cells (pos + 1) j

/-- Placing a list of rank contents, rank `i` at base square `56 - i * 8`. -/
def placeRanks : List (List (Option (Piece × Bool))) → Nat → PlaceSt → PlaceSt
  | [], _, st => st
  | c :: cs, i, st => placeRanks cs (i + 1) (applyCells (56 - i * 8) c 0 st)

/-- The bit contributed at square `j` by a list of rank contents. -/
def ranksBitAt (g : Option (Piece × Bool) → Bool) :
    List (List (Option (Piece × Bool))) → Nat → Nat → Bool
  | [], _, _ => false
  | c :: cs, i, j => cellsBitAt g (56 - i * 8) c 0 j || ranksBitAt g cs (i + 1) j

/-- The empty placement state. -/
def placeZero : PlaceSt := ⟨0, 0, [0, 0, 0, 0, 0, 0]⟩

/-- The placement state `load_fen` builds from eight rank chunks. -/
def loadPlace (p0 p1 p2 p3 p4 p5 p6 p7 : List Char) : PlaceSt :=
  rankParse 7 p7 0 (rankParse 6 p6 0 (rankParse 5 p5 0 (rankParse 4 p4 0
    (rankParse 3 p3 0 (rankParse 2 p2 0 (rankParse 1 p1 0 (rankParse 0 p0 0 placeZero)))))))

end WChess

/-! ### Shared helper lemmas -/

namespace WChess

/-- Membership in an append-accumulating fold distributes over the pieces. -/
theorem mem_foldl_append {α β : Type} (g : β → List α) (L : List β) (a : List α) (s : α) :
    (s ∈ L.foldl (fun acc i => acc ++ g i) a) ↔ s ∈ a ∨ ∃ i ∈ L, s ∈ g i := by
  induction L generalizing a with
  | nil => simp
  | cons x xs ih =>
    simp only [List.foldl_cons, ih, List.mem_append, List.mem_cons]
    constructor
    · rintro ((h | h) | ⟨i, hi, h⟩)
      · exact Or.inl h
      · exact Or.inr ⟨x, Or.inl rfl, h⟩
      · exact Or.inr ⟨i, Or.inr hi, h⟩
    · rintro (h | ⟨i, (rfl | hi), h⟩)
      · exact Or.inl (Or.inl h)
      · exact Or.inl (Or.inr h)
      · exact Or.inr ⟨i, hi, h⟩

/-- The square number read off a mask is always below 64. -/
theorem squareOfMask_lt (x : Nat) : squareOfMask x < 64 := by
  unfold squareOfMask
  cases h : (List.range 64).find? (fun i => x.testBit i) with
  | none => simp
  | some j =>
    have hj := List.mem_of_find?_eq_some h
    rw [List.mem_range] at hj
    simpa using hj

/-- The rendering letters of `legal_moves` are exactly the five piece
letters. -/
theorem pieceLetterOf_mem (p : Piece) (c : Char)
    (h : Chessboard.pieceLetterOf p = some c) : c ∈ ['K', 'Q', 'R', 'B', 'N'] := by
  cases p <;> simp [Chessboard.pieceLetterOf] at h <;> simp [← h]

/-- A skip-or-accumulate fold: conditionally ORing cons cells that are all
powers of two sets exactly the bits whose power is in the list and passes the
condition. -/
theorem foldl_pick_testBit (cond : Nat → Bool) :
    ∀ (L : List Nat) (a j : Nat), (∀ x ∈ L, ∃ k, x = 2 ^ k) →
      (L.foldl (fun acc d => if cond d then acc ||| d else acc) a).testBit j =
        (a.testBit j || L.any (fun d => d == 2 ^ j && cond d))
  | [], a, j, _ => by simp
  | x :: xs, a, j, hL => by
    obtain ⟨k, rfl⟩ := hL x (by simp)
    rw [List.foldl_cons, List.any_cons,
      foldl_pick_testBit cond xs _ j (fun y hy => hL y (by simp [hy]))]
    by_cases hc : cond (2 ^ k)
    · rw [if_pos hc]
      by_cases hkj : k = j
      · subst hkj
        simp [hc, Nat.testBit_or, Nat.testBit_two_pow]
      · have : ((2 ^ k : Nat) == 2 ^ j) = false := by
          simp only [beq_eq_false_iff_ne, ne_eq]
          exact fun h => hkj (Nat.pow_right_injective (by norm_num) h)
        simp [this, Nat.testBit_or, Nat.testBit_two_pow_of_ne hkj]
    · rw [if_neg hc]
      simp [hc]

/-- A conditional-cons fold is a filtered map. -/
theorem foldr_cons_filter_map (p : Nat → Bool) (f : Nat → Nat) :
    ∀ L : List Nat,
      L.foldr (fun i acc => if p i then f i :: acc else acc) [] = (L.filter p).map f
  | [] => rfl
  | x :: xs => by
    rw [List.foldr_cons, List.filter_cons, foldr_cons_filter_map p f xs]
    by_cases h : p x
    · rw [if_pos h, h]
      rfl
    · rw [if_neg h, Bool.eq_false_iff.mpr h]
      rfl

/-- `get_squares` in filter-map form. -/
theorem getSquares_eq_filter_map (m : Nat) :
    Chessboard.getSquares m =
      ((List.range 64).filter (fun k => m &&& (1 <<< k) != 0)).map (fun k => 1 <<< k) := by
  unfold Chessboard.getSquares
  exact foldr_cons_filter_map _ _ _

/-- Every element of `get_squares` is a power of two. -/
theorem mem_getSquares_pow (m : Nat) : ∀ x ∈ Chessboard.getSquares m, ∃ k, x = 2 ^ k := by
  intro x hx
  rw [getSquares_eq_filter_map, List.mem_map] at hx
  obtain ⟨k, _, rfl⟩ := hx
  exact ⟨k, Nat.one_shiftLeft k⟩

/-- Intersection with a single bit is nonzero exactly when the bit is set. -/
theorem and_two_pow_ne_zero (m k : Nat) : (m &&& 2 ^ k != 0) = m.testBit k := by
  rw [Nat.and_two_pow]
  have h2 : (2 : Nat) ^ k ≠ 0 := Nat.pos_iff_ne_zero.mp (Nat.pos_pow_of_pos k (by norm_num))
  cases h : m.testBit k <;> simp [h, h2]

/-- Searching `get_squares` for the single bit `2 ^ j` under a side condition
reduces to the bit test plus the condition. -/
theorem getSquares_any_eq (m : Nat) (cond : Nat → Bool) (j : Nat) (hj : j < 64) :
    ((Chessboard.getSquares m).any (fun d => d == 2 ^ j && cond d)) =
      (m.testBit j && cond (2 ^ j)) := by
  rw [getSquares_eq_filter_map, List.any_map, List.any_filter]
  cases hC : (m.testBit j && cond (2 ^ j)) with
  | false =>
    apply List.any_eq_false.mpr
    intro k _
    simp only [Function.comp, Nat.one_shiftLeft, and_two_pow_ne_zero,
      Bool.and_eq_true, beq_iff_eq]
    rintro ⟨hbit, heq, hcond⟩
    have hk2 : k = j := Nat.pow_right_injective (by norm_num) heq
    subst hk2
    rw [hbit, hcond] at hC
    simp at hC
  | true =>
    apply List.any_eq_true.mpr
    refine ⟨j, List.mem_range.mpr hj, ?_⟩
    rw [Bool.and_eq_true] at hC
    simp only [Function.comp, Nat.one_shiftLeft, and_two_pow_ne_zero, hC.1, hC.2]
    simp

/-- Bit `j` of a legal-filter mask: the origin must belong to the side to
move, the destination must be pseudo-legal, and the per-destination condition
of the filter must hold. -/
theorem legalFilterOne_testBit (b : Chessboard) (i j : Nat) (hj : j < 64) :
    (Chessboard.legalFilterOne b i).testBit j =
      (!((1 <<< i) &&& b.getColor b.turn == 0) &&
        ((b.pseudoLegalMoves.getD i 0).testBit j && Chessboard.destLegal b i (2 ^ j))) := by
  unfold Chessboard.legalFilterOne
  by_cases hg : ((1 <<< i) &&& b.getColor b.turn == 0)
  · simp [hg]
  · rw [if_neg hg]
    rw [foldl_pick_testBit (Chessboard.destLegal b i) _ 0 j (mem_getSquares_pow _),
      getSquares_any_eq _ _ _ hj]
    simp [hg]

end WChess


/-! ### FEN round-trip lemmas -/

namespace WChess

/-- Splitting a separator-free list yields the single piece. -/
theorem splitChar_no_sep (sep : Char) :
    ∀ l : List Char, (∀ c ∈ l, c ≠ sep) → splitChar sep l = [l]
  | [], _ => rfl
  | c :: cs, h => by
    unfold splitChar
    rw [if_neg (h c (by simp)), splitChar_no_sep sep cs (fun x hx => h x (by simp [hx]))]

/-- Splitting after a separator-free head piece. -/
theorem splitChar_head (sep : Char) :
    ∀ (a rest : List Char), (∀ c ∈ a, c ≠ sep) →
      splitChar sep (a ++ sep :: rest) = a :: splitChar sep rest
  | [], rest, _ => by
    rw [List.nil_append]
    conv_lhs => rw [splitChar.eq_def]
    simp
  | c :: cs, rest, h => by
    rw [List.cons_append]
    conv_lhs => rw [splitChar.eq_def]
    dsimp only
    rw [if_neg (h c (by simp)), splitChar_head sep cs rest (fun x hx => h x (by simp [hx]))]

/-- Splitting never yields an empty list of pieces. -/
theorem splitChar_ne_nil (sep : Char) : ∀ l : List Char, splitChar sep l ≠ []
  | [] => by simp [splitChar]
  | c :: cs => by
    unfold splitChar
    by_cases h : c = sep
    · simp [h]
    · rw [if_neg h]
      cases hs : splitChar sep cs with
      | nil => simp
      | cons g gs => simp

/-- Prepending a character to the first piece. -/
theorem joinSep_cons_head (sep c : Char) (g : List Char) (gs : List (List Char)) :
    joinSep sep ((c :: g) :: gs) = c :: joinSep sep (g :: gs) := by
  cases gs <;> rfl

/-- Joining undoes splitting. -/
theorem joinSep_splitChar (sep : Char) : ∀ l : List Char, joinSep sep (splitChar sep l) = l
  | [] => rfl
  | c :: cs => by
    unfold splitChar
    by_cases h : c = sep
    · rw [if_pos h]
      cases hs : splitChar sep cs with
      | nil => exact absurd hs (splitChar_ne_nil sep cs)
      | cons g gs =>
        have := joinSep_splitChar sep cs
        rw [hs] at this
        show joinSep sep ([] :: g :: gs) = c :: cs
        show [] ++ sep :: joinSep sep (g :: gs) = c :: cs
        rw [List.nil_append, this, h]
    · rw [if_neg h]
      cases hs : splitChar sep cs with
      | nil => exact absurd hs (splitChar_ne_nil sep cs)
      | cons g gs =>
        have := joinSep_splitChar sep cs
        rw [hs] at this
        show joinSep sep ((c :: g) :: gs) = c :: cs
        rw [joinSep_cons_head, this]

/-- Digits of `natPrintAux` are decimal digits. -/
theorem natPrintAux_digits :
    ∀ fuel n, ∀ c ∈ natPrintAux fuel n, 48 ≤ c.toNat ∧ c.toNat ≤ 57
  | 0, _, c, hc => by simp [natPrintAux] at hc
  | fuel + 1, n, c, hc => by
    unfold natPrintAux at hc
    by_cases h : n == 0
    · simp [h] at hc
    · rw [if_neg (by simpa using h)] at hc
      rw [List.mem_append] at hc
      rcases hc with hc | hc
      · exact natPrintAux_digits fuel (n / 10) c hc
      · have hcv : c = Char.ofNat (48 + n % 10) := by simpa using hc
        subst hcv
        have hm : n % 10 < 10 := Nat.mod_lt _ (by norm_num)
        interval_cases h10 : n % 10 <;> decide

/-- Digits of `natPrint` are decimal digits. -/
theorem natPrint_digits (n : Nat) : ∀ c ∈ natPrint n, 48 ≤ c.toNat ∧ c.toNat ≤ 57 := by
  intro c hc
  unfold natPrint at hc
  by_cases h : n == 0
  · rw [if_pos h] at hc
    have : c = '0' := by simpa using hc
    subst this
    constructor <;> decide
  · rw [if_neg h] at hc
    exact natPrintAux_digits _ _ c hc

/-- Character code of a decimal digit. -/
theorem char_ofNat_digit_toNat : ∀ m, m < 10 → (Char.ofNat (48 + m)).toNat = 48 + m := by
  intro m hm
  interval_cases m <;> decide

/-- A digit character is recovered from its value. -/
theorem char_digit_roundtrip (c : Char) (h1 : 48 ≤ c.toNat) (h2 : c.toNat ≤ 57) :
    Char.ofNat (48 + (c.toNat - 48)) = c := by
  have : 48 + (c.toNat - 48) = c.toNat := by omega
  rw [this, Char.ofNat_toNat]

/-- Digit-character code bounds give `isDigit`. -/
theorem isDigit_of_bounds (c : Char) (h1 : 48 ≤ c.toNat) (h2 : c.toNat ≤ 57) :
    c.isDigit = true := by
  simp only [Char.isDigit, ge_iff_le, Bool.and_eq_true, decide_eq_true_eq]
  constructor <;> rw [UInt32.le_def, BitVec.le_def] <;> exact_mod_cast ‹_›

/-- `isDigit` gives the digit-character code bounds. -/
theorem bounds_of_isDigit (c : Char) (h : c.isDigit = true) :
    48 ≤ c.toNat ∧ c.toNat ≤ 57 := by
  simp only [Char.isDigit, ge_iff_le, Bool.and_eq_true, decide_eq_true_eq] at h
  obtain ⟨h1, h2⟩ := h
  rw [UInt32.le_def, BitVec.le_def] at h1 h2
  exact ⟨h1, h2⟩

/-- The printing recursion is fuel-independent above the value. -/
theorem natPrintAux_fuel : ∀ n f1 f2, n < f1 → n < f2 →
    natPrintAux f1 n = natPrintAux f2 n := by
  intro n
  induction n using Nat.strong_induction_on with
  | _ n ih =>
    intro f1 f2 h1 h2
    match f1, f2 with
    | fa + 1, fb + 1 =>
      unfold natPrintAux
      by_cases hn : n == 0
      · simp [hn]
      · rw [if_neg (by simpa using hn), if_neg (by simpa using hn)]
        have hn0 : 0 < n := Nat.pos_of_ne_zero (by simpa using hn)
        have hd : n / 10 < n := Nat.div_lt_self hn0 (by norm_num)
        rw [ih (n / 10) hd fa fb (by omega) (by omega)]

/-- Printing zero consumes no fuel. -/
theorem natPrintAux_zero : ∀ f, natPrintAux f 0 = []
  | 0 => rfl
  | _ + 1 => rfl

/-- Unfolding one printing step of a nonzero value. -/
theorem natPrintAux_succ_ne (f n : Nat) (h : n ≠ 0) :
    natPrintAux (f + 1) n = natPrintAux f (n / 10) ++ [Char.ofNat (48 + n % 10)] := by
  conv_lhs => rw [natPrintAux.eq_def]
  dsimp only
  simp [h]

/-- Folding the parse step over printed digits. -/
theorem parse_natPrintAux : ∀ n fuel a, n < fuel →
    (natPrintAux fuel n).foldl (fun x c => 10 * x + (c.toNat - 48)) a =
      if n = 0 then a else a * 10 ^ (natPrintAux fuel n).length + n := by
  intro n
  induction n using Nat.strong_induction_on with
  | _ n ih =>
    intro fuel a hf
    match fuel with
    | f + 1 =>
      by_cases hn : n = 0
      · simp [hn, natPrintAux_zero]
      · rw [if_neg hn, natPrintAux_succ_ne f n hn]
        rw [List.foldl_append, List.length_append]
        have hd : n / 10 < n := Nat.div_lt_self (Nat.pos_of_ne_zero hn) (by norm_num)
        have hm : n % 10 < 10 := Nat.mod_lt _ (by norm_num)
        have hdm := Nat.div_add_mod n 10
        rw [ih (n / 10) hd f a (by omega)]
        by_cases h10 : n / 10 = 0
        · rw [if_pos h10, h10, natPrintAux_zero]
          simp only [List.foldl_cons, List.foldl_nil, List.length_nil, List.length_cons,
            Nat.zero_add, pow_one]
          rw [char_ofNat_digit_toNat _ hm]
          omega
        · rw [if_neg h10]
          simp only [List.foldl_cons, List.foldl_nil, List.length_cons, List.length_nil]
          rw [char_ofNat_digit_toNat _ hm, pow_succ, ← Nat.mul_assoc]
          generalize a * 10 ^ (natPrintAux f (n / 10)).length = Q
          omega

/-- Parsing a printed numeral recovers the value. -/
theorem natParseV_natPrint (n : Nat) : natParseV (natPrint n) = n := by
  unfold natParseV natPrint
  by_cases hn : n = 0
  · simp [hn]
  · rw [if_neg (by simpa using hn)]
    rw [parse_natPrintAux n (n + 1) 0 (by omega), if_neg hn]
    simp

/-- Appending one digit multiplies the parsed value by ten. -/
theorem natParseV_append_digit (ds : List Char) (c : Char) :
    natParseV (ds ++ [c]) = 10 * natParseV ds + (c.toNat - 48) := by
  unfold natParseV
  rw [List.foldl_append]
  rfl

/-- The parse fold never shrinks its accumulator. -/
theorem natParseV_acc_ge :
    ∀ (cs : List Char) (a : Nat), a ≤ cs.foldl (fun x c => 10 * x + (c.toNat - 48)) a
  | [], a => le_refl a
  | c :: cs, a => by
    rw [List.foldl_cons]
    calc a ≤ 10 * a + (c.toNat - 48) := by omega
    _ ≤ _ := natParseV_acc_ge cs _

/-- A numeral starting with a nonzero digit has positive value. -/
theorem natParseV_pos (c : Char) (cs : List Char) (hd : c.isDigit = true) (h0 : c ≠ '0') :
    0 < natParseV (c :: cs) := by
  have hb := bounds_of_isDigit c hd
  have h48 : c.toNat ≠ 48 := by
    intro h
    apply h0
    have hc := (Char.ofNat_toNat c).symm
    rw [h] at hc
    exact hc
  have h1 : 0 < c.toNat - 48 := by omega
  unfold natParseV
  rw [List.foldl_cons]
  calc 0 < 10 * 0 + (c.toNat - 48) := by omega
  _ ≤ _ := natParseV_acc_ge cs _

/-- Single-digit printing. -/
theorem natPrint_single (v : Nat) (hv : v < 10) : natPrint v = [Char.ofNat (48 + v)] := by
  interval_cases v <;> decide

/-- Peeling the last digit off a printed numeral. -/
theorem natPrint_step (v d : Nat) (hv : 0 < v) (hd : d < 10) :
    natPrint (10 * v + d) = natPrint v ++ [Char.ofNat (48 + d)] := by
  unfold natPrint
  have h1 : ¬(10 * v + d = 0) := by omega
  have h2 : ¬(v = 0) := by omega
  rw [if_neg (by simpa using h1), if_neg (by simpa using h2)]
  rw [natPrintAux_succ_ne _ _ h1]
  have hdiv : (10 * v + d) / 10 = v := by omega
  have hmod : (10 * v + d) % 10 = d := by omega
  rw [hdiv, hmod]
  rw [natPrintAux_fuel v (10 * v + d) (v + 1) (by omega) (by omega)]

/-- Printing a parsed canonical numeral reproduces it. -/
theorem natPrint_natParseV (ds : List Char) (h : validNumB ds = true) :
    natPrint (natParseV ds) = ds := by
  induction ds using List.reverseRecOn with
  | nil => simp [validNumB] at h
  | append_singleton ds c ih =>
    simp only [validNumB, Bool.and_eq_true, List.all_append, List.all_cons, List.all_nil,
      Bool.not_eq_true', Bool.or_eq_true, bne_iff_ne, ne_eq, beq_iff_eq] at h
    cases ds with
    | nil =>
      have hcd : c.isDigit = true := h.1.2.2.1
      have hb := bounds_of_isDigit c hcd
      rw [List.nil_append]
      rw [show natParseV [c] = c.toNat - 48 by unfold natParseV; simp]
      rw [natPrint_single _ (by omega), char_digit_roundtrip c hb.1 hb.2]
    | cons d0 tl =>
      have hdigits : ((d0 :: tl).all Char.isDigit) = true := h.1.2.1
      have hcd : c.isDigit = true := h.1.2.2.1
      have hd0 : d0.isDigit = true := by
        simp only [List.all_cons, Bool.and_eq_true] at hdigits
        exact hdigits.1
      have hhead : d0 ≠ '0' := by
        rcases h.2 with h2 | h2
        · intro hc
          apply h2
          simp [hc]
        · exfalso
          have hlen : ((d0 :: tl) ++ [c]).length = 1 := by rw [h2]; rfl
          simp at hlen
      have hpos : 0 < natParseV (d0 :: tl) := natParseV_pos d0 tl hd0 hhead
      have hcb := bounds_of_isDigit c hcd
      rw [natParseV_append_digit, natPrint_step _ _ hpos (by omega)]
      rw [char_digit_roundtrip c hcb.1 hcb.2]
      rw [ih]
      unfold validNumB
      simp only [Bool.and_eq_true]
      refine ⟨⟨by simp, hdigits⟩, ?_⟩
      have : ((d0 :: tl).headD '0' != '0') = true := by simpa using hhead
      simp [this]
      exact Or.inl hhead

/-- `load_fen`'s per-letter placement is cell placement. -/
theorem placeChar_eq_applyCell (st : PlaceSt) (m : Nat) (c : Char) :
    placeChar st (1 <<< m) c = applyCell st m (cellOfChar c) := by
  unfold placeChar cellOfChar
  dsimp only
  split <;> rfl

/-- The white mask after placing one cell. -/
theorem applyCell_white (st : PlaceSt) (m : Nat) (cell : Option (Piece × Bool)) :
    (applyCell st m cell).white =
      if cellWhiteB cell then st.white ||| (1 <<< m) else st.white := by
  rcases cell with _ | ⟨p, col⟩
  · rfl
  · cases col <;> rfl

/-- The black mask after placing one cell. -/
theorem applyCell_black (st : PlaceSt) (m : Nat) (cell : Option (Piece × Bool)) :
    (applyCell st m cell).black =
      if cellBlackB cell then st.black ||| (1 <<< m) else st.black := by
  rcases cell with _ | ⟨p, col⟩
  · rfl
  · cases col <;> rfl

/-- Placing a cell keeps the piece-array length. -/
theorem applyCell_pieces_length (st : PlaceSt) (m : Nat) (cell : Option (Piece × Bool)) :
    (applyCell st m cell).pieces.length = st.pieces.length := by
  rcases cell with _ | ⟨p, col⟩
  · rfl
  · cases col <;> simp [applyCell]

/-- The array index of a known piece is below 6. -/
theorem pieceIdx_lt (p : Piece) (hp : p ≠ Piece.UNKNOWN) : p.idx < 6 := by
  cases p <;> simp [Piece.idx] at hp ⊢

/-- The piece boards after placing one cell. -/
theorem applyCell_pieces_getD (st : PlaceSt) (m : Nat) (cell : Option (Piece × Bool))
    (k : Nat) (hlen : st.pieces.length = 6) (hk : k < 6) (hp : properCell cell) :
    (applyCell st m cell).pieces.getD k 0 =
      if cellPieceB k cell then st.pieces.getD k 0 ||| (1 <<< m)
      else st.pieces.getD k 0 := by
  rcases cell with _ | ⟨p, col⟩
  · rfl
  · have hpi : p.idx < 6 := pieceIdx_lt p hp
    have hbody : (applyCell st m (some (p, col))).pieces =
        st.pieces.set p.idx (st.pieces.getD p.idx 0 ||| (1 <<< m)) := by
      cases col <;> rfl
    rw [hbody]
    by_cases hkp : p.idx = k
    · subst hkp
      simp only [cellPieceB, beq_self_eq_true, if_pos]
      rw [List.getD_eq_getElem?_getD, List.getElem?_set_self (by omega), Option.getD_some]
    · have : (cellPieceB k (some (p, col))) = false := by
        simp [cellPieceB, hkp]
      rw [this, if_neg (by simp)]
      rw [List.getD_eq_getElem?_getD, List.getElem?_set_ne hkp, ← List.getD_eq_getElem?_getD]

/-- Outside the span of a cell run, no bit is contributed. -/
theorem cellsBitAt_out (f : Option (Piece × Bool) → Bool) (base : Nat) :
    ∀ (cells : List (Option (Piece × Bool))) (pos j : Nat),
      (j < base + pos ∨ base + pos + cells.length ≤ j) →
      cellsBitAt f base cells pos j = false
  | [], _, _, _ => rfl
  | cell :: cells, pos, j, h => by
    unfold cellsBitAt
    have h1 : (j == base + pos) = false := by
      simp only [List.length_cons] at h
      simp only [beq_eq_false_iff_ne, ne_eq]
      omega
    rw [h1]
    simp only [Bool.false_and, Bool.false_or]
    apply cellsBitAt_out f base cells (pos + 1) j
    simp only [List.length_cons] at h
    omega

/-- Inside the span, the contributed bit is the cell's predicate value. -/
theorem cellsBitAt_hit (f : Option (Piece × Bool) → Bool) (base : Nat) :
    ∀ (cells : List (Option (Piece × Bool))) (pos o : Nat), o < cells.length →
      cellsBitAt f base cells pos (base + pos + o) = f (cells.getD o none)
  | [], _, o, ho => by simp at ho
  | cell :: cells, pos, o, ho => by
    unfold cellsBitAt
    cases o with
    | zero =>
      have h1 : (base + pos + 0 == base + pos) = true := by simp
      rw [h1]
      rw [cellsBitAt_out f base cells (pos + 1) (base + pos + 0) (by omega)]
      simp
    | succ o2 =>
      have h1 : (base + pos + (o2 + 1) == base + pos) = false := by
        simp only [beq_eq_false_iff_ne, ne_eq]
        omega
      rw [h1]
      simp only [Bool.false_and, Bool.false_or]
      have harr : base + pos + (o2 + 1) = base + (pos + 1) + o2 := by omega
      rw [harr, cellsBitAt_hit f base cells (pos + 1) o2 (by simpa using ho)]
      rfl

/-- Placing a run keeps the piece-array length. -/
theorem applyCells_pieces_length (base : Nat) :
    ∀ (cells : List (Option (Piece × Bool))) (pos : Nat) (st : PlaceSt),
      (applyCells base cells pos st).pieces.length = st.pieces.length
  | [], _, _ => rfl
  | cell :: cells, pos, st => by
    unfold applyCells
    rw [applyCells_pieces_length base cells (pos + 1) _, applyCell_pieces_length]

/-- White-mask bits after placing a run of cells. -/
theorem applyCells_white_testBit (base : Nat) :
    ∀ (cells : List (Option (Piece × Bool))) (pos : Nat) (st : PlaceSt) (j : Nat),
      ((applyCells base cells pos st).white.testBit j) =
        (st.white.testBit j || cellsBitAt cellWhiteB base cells pos j)
  | [], _, _, _ => by simp [applyCells, cellsBitAt]
  | cell :: cells, pos, st, j => by
    unfold applyCells cellsBitAt
    rw [applyCells_white_testBit base cells (pos + 1) _ j, applyCell_white]
    by_cases hW : cellWhiteB cell
    · rw [if_pos hW, hW]
      rw [Nat.testBit_or, Nat.one_shiftLeft, Nat.testBit_two_pow]
      by_cases hj : j = base + pos
      · subst hj
        simp
      · have h1 : (j == base + pos) = false := by simpa using hj
        have h2 : (decide (base + pos = j)) = false := by
          simp only [decide_eq_false_iff_not]
          omega
        rw [h1, h2]
        simp [Bool.or_assoc]
    · have hW2 : cellWhiteB cell = false := by simpa using hW
      rw [if_neg hW, hW2]
      simp [Bool.or_assoc]

/-- Black-mask bits after placing a run of cells. -/
theorem applyCells_black_testBit (base : Nat) :
    ∀ (cells : List (Option (Piece × Bool))) (pos : Nat) (st : PlaceSt) (j : Nat),
      ((applyCells base cells pos st).black.testBit j) =
        (st.black.testBit j || cellsBitAt cellBlackB base cells pos j)
  | [], _, _, _ => by simp [applyCells, cellsBitAt]
  | cell :: cells, pos, st, j => by
    unfold applyCells cellsBitAt
    rw [applyCells_black_testBit base cells (pos + 1) _ j, applyCell_black]
    by_cases hW : cellBlackB cell
    · rw [if_pos hW, hW]
      rw [Nat.testBit_or, Nat.one_shiftLeft, Nat.testBit_two_pow]
      by_cases hj : j = base + pos
      · subst hj
        simp
      · have h1 : (j == base + pos) = false := by simpa using hj
        have h2 : (decide (base + pos = j)) = false := by
          simp only [decide_eq_false_iff_not]
          omega
        rw [h1, h2]
        simp [Bool.or_assoc]
    · have hW2 : cellBlackB cell = false := by simpa using hW
      rw [if_neg hW, hW2]
      simp [Bool.or_assoc]

/-- Piece-board bits after placing a run of proper cells. -/
theorem applyCells_pieces_testBit (base : Nat) :
    ∀ (cells : List (Option (Piece × Bool))) (pos : Nat) (st : PlaceSt) (k j : Nat),
      st.pieces.length = 6 → k < 6 → (∀ cell ∈ cells, properCell cell) →
      (((applyCells base cells pos st).pieces.getD k 0).testBit j) =
        ((st.pieces.getD k 0).testBit j || cellsBitAt (cellPieceB k) base cells pos j)
  | [], _, _, _, _, _, _, _ => by simp [applyCells, cellsBitAt]
  | cell :: cells, pos, st, k, j, hlen, hk, hprop => by
    unfold applyCells cellsBitAt
    rw [applyCells_pieces_testBit base cells (pos + 1) _ k j
      (by rw [applyCell_pieces_length]; exact hlen) hk
      (fun x hx => hprop x (by simp [hx]))]
    rw [applyCell_pieces_getD st (base + pos) cell k hlen hk (hprop cell (by simp))]
    by_cases hW : cellPieceB k cell
    · rw [if_pos hW, hW]
      rw [Nat.testBit_or, Nat.one_shiftLeft, Nat.testBit_two_pow]
      by_cases hj : j = base + pos
      · subst hj
        simp
      · have h1 : (j == base + pos) = false := by simpa using hj
        have h2 : (decide (base + pos = j)) = false := by
          simp only [decide_eq_false_iff_not]
          omega
        rw [h1, h2]
        simp [Bool.or_assoc]
    · have hW2 : cellPieceB k cell = false := by simpa using hW
      rw [if_neg hW, hW2]
      simp [Bool.or_assoc]

/-- Empty cells are skipped. -/
theorem applyCells_skip (base : Nat) :
    ∀ (k : Nat) (cells : List (Option (Piece × Bool))) (pos : Nat) (st : PlaceSt),
      applyCells base (List.replicate k none ++ cells) pos st =
        applyCells base cells (pos + k) st
  | 0, cells, pos, st => by simp [List.replicate]
  | k + 1, cells, pos, st => by
    rw [List.replicate_succ, List.cons_append]
    show applyCells base (List.replicate k none ++ cells) (pos + 1) st = _
    rw [applyCells_skip base k cells (pos + 1) st]
    congr 1
    omega

/-- Piece letters are not digits. -/
theorem isPieceLetter_not_digit (c : Char) (h : isPieceLetterB c = true) :
    c.isDigit = false := by
  simp only [isPieceLetterB, List.mem_cons, List.not_mem_nil, or_false,
    decide_eq_true_eq] at h
  rcases h with rfl | rfl | rfl | rfl | rfl | rfl | rfl | rfl | rfl | rfl | rfl | rfl <;> decide

/-- A digit of a valid rank character is a real digit. -/
theorem validDigit_isDigit (c : Char) (h1 : 49 ≤ c.toNat) (h2 : c.toNat ≤ 56) :
    c.isDigit = true :=
  isDigit_of_bounds c (by omega) (by omega)

/-- A valid rank's remaining content fills the files up to exactly 8. -/
theorem validRank_content_length :
    ∀ (r : List Char) (lastD : Bool) (n : Nat), validRankAux r lastD n = true →
      n + (rankToContent r).length = 8
  | [], _, n, hv => by
    simp only [validRankAux, beq_iff_eq] at hv
    simp [rankToContent, hv]
  | c :: cs, lastD, n, hv => by
    unfold validRankAux at hv
    unfold rankToContent
    by_cases hl : isPieceLetterB c
    · rw [if_pos hl] at hv
      rw [isPieceLetter_not_digit c hl]
      have := validRank_content_length cs false (n + 1) hv
      simp only [Bool.false_eq_true, if_false, List.length_cons]
      omega
    · rw [if_neg hl] at hv
      by_cases hr : 49 ≤ c.toNat ∧ c.toNat ≤ 56
      · rw [if_pos hr] at hv
        rw [validDigit_isDigit c hr.1 hr.2]
        rw [Bool.and_eq_true] at hv
        have := validRank_content_length cs true (n + (c.toNat - 48)) hv.2
        simp only [if_true, List.length_append, List.length_replicate]
        omega
      · rw [if_neg hr] at hv
        simp at hv

/-- Once past the eighth file, the placement loop does nothing. -/
theorem rankParse_stop (idx : Nat) :
    ∀ (r : List Char) (file : Nat) (st : PlaceSt), 7 < file →
      rankParse idx r file st = st
  | [], _, _, _ => rfl
  | c :: cs, file, st, h => by
    unfold rankParse
    rw [if_pos h]

/-- The placement loop of `load_fen` over a valid rank (with any trailing
characters) is exactly cell placement of the rank's content. -/
theorem rankParse_eq_applyCells (idx : Nat) :
    ∀ (r ys : List Char) (lastD : Bool) (file : Nat) (st : PlaceSt),
      validRankAux r lastD file = true →
      rankParse idx (r ++ ys) file st =
        applyCells (56 - idx * 8) (rankToContent r) file st
  | [], ys, lastD, file, st, hv => by
    have h8 : file = 8 := by simpa [validRankAux] using hv
    subst h8
    rw [List.nil_append, rankParse_stop idx ys 8 st (by omega)]
    rfl
  | c :: cs, ys, lastD, file, st, hv => by
    unfold validRankAux at hv
    rw [List.cons_append]
    by_cases hl : isPieceLetterB c
    · rw [if_pos hl] at hv
      have hnd : c.isDigit = false := isPieceLetter_not_digit c hl
      have hlen := validRank_content_length cs false (file + 1) hv
      unfold rankParse
      rw [if_neg (by omega), hnd]
      simp only [Bool.false_eq_true, if_false]
      rw [placeChar_eq_applyCell, rankParse_eq_applyCells idx cs ys false (file + 1) _ hv]
      conv_rhs => rw [rankToContent.eq_def]
      dsimp only
      rw [hnd]
      rfl
    · rw [if_neg hl] at hv
      by_cases hr : 49 ≤ c.toNat ∧ c.toNat ≤ 56
      · rw [if_pos hr] at hv
        rw [Bool.and_eq_true] at hv
        have hd : c.isDigit = true := validDigit_isDigit c hr.1 hr.2
        have hlen := validRank_content_length cs true (file + (c.toNat - 48)) hv.2
        have hd1 : 1 ≤ c.toNat - 48 := by omega
        unfold rankParse
        rw [if_neg (by omega), hd]
        simp only [if_true]
        rw [rankParse_eq_applyCells idx cs ys true (file + (c.toNat - 48)) st hv.2]
        conv_rhs => rw [rankToContent.eq_def]
        dsimp only
        rw [hd]
        simp only [if_true]
        rw [applyCells_skip]
      · rw [if_neg hr] at hv
        simp at hv

/-- `pieceChar` in terms of its total variant. -/
theorem pieceChar_eq (p : Piece) (col : Bool) :
    pieceChar p col = if p = Piece.UNKNOWN then none else some (pieceCharD p col) := by
  cases p <;> cases col <;> rfl

/-- The rank loop of `get_fen` is cell-level printing. -/
theorem fenRankLoop_eq_printLoop (b : Chessboard) (base : Nat) :
    ∀ (fs : List Nat) (e : Nat),
      fenRankLoop b base fs e = printLoop (fs.map (fun f => cellOf b (base + f))) e
  | [], e => rfl
  | f :: fs, e => by
    have ih0 := fenRankLoop_eq_printLoop b base fs 0
    have ih1 := fenRankLoop_eq_printLoop b base fs (e + 1)
    unfold fenRankLoop
    rw [List.map_cons]
    simp only [cellOf] at ih0 ih1 ⊢
    cases hg : b.getPiece (1 <<< (base + f)) <;>
      cases hw : (b.white &&& (1 <<< (base + f)) != 0) <;>
      simp only [hg, hw, pieceChar, printLoop, pieceCharD, ih0, ih1]

/-- Content parsing of a piece letter produced by printing. -/
theorem cellOfChar_pieceCharD (p : Piece) (col : Bool) (hp : p ≠ Piece.UNKNOWN) :
    cellOfChar (pieceCharD p col) = some (p, col) := by
  cases p <;> cases col <;> first | rfl | exact absurd rfl hp

/-- Printed piece letters are not digits. -/
theorem pieceCharD_not_digit (p : Piece) (col : Bool) (hp : p ≠ Piece.UNKNOWN) :
    (pieceCharD p col).isDigit = false := by
  cases p <;> cases col <;> first | rfl | exact absurd rfl hp

/-- Content of a rank string headed by a digit. -/
theorem rankToContent_digit (c : Char) (cs : List Char) (h : c.isDigit = true) :
    rankToContent (c :: cs) = List.replicate (c.toNat - 48) none ++ rankToContent cs := by
  conv_lhs => rw [rankToContent.eq_def]
  dsimp only
  rw [h]
  simp

/-- Content of a rank string headed by a non-digit. -/
theorem rankToContent_letter (c : Char) (cs : List Char) (h : c.isDigit = false) :
    rankToContent (c :: cs) = cellOfChar c :: rankToContent cs := by
  conv_lhs => rw [rankToContent.eq_def]
  dsimp only
  rw [h]
  simp

/-- Empty runs accumulate into the counter. -/
theorem printLoop_replicate :
    ∀ (k : Nat) (cells : List (Option (Piece × Bool))) (e : Nat),
      printLoop (List.replicate k none ++ cells) e = printLoop cells (e + k)
  | 0, cells, e => by simp [List.replicate]
  | k + 1, cells, e => by
    rw [List.replicate_succ, List.cons_append]
    show printLoop (List.replicate k none ++ cells) (e + 1) = _
    rw [printLoop_replicate k cells (e + 1)]
    congr 1
    omega

/-- Parsing a printed cell sequence recovers it (with pending empty cells in
front). -/
theorem rankToContent_printLoop :
    ∀ (cells : List (Option (Piece × Bool))) (e : Nat),
      (∀ cell ∈ cells, properCell cell) → e + cells.length ≤ 9 →
      rankToContent (printLoop cells e) = List.replicate e none ++ cells
  | [], e, _, he => by
    unfold printLoop
    by_cases h0 : e > 0
    · have hce := char_ofNat_digit_toNat e (by omega)
      rw [if_pos h0, natPrint_single e (by omega)]
      rw [rankToContent_digit _ _ (isDigit_of_bounds _ (by omega) (by omega))]
      rw [hce]
      simp [rankToContent]
    · rw [if_neg h0]
      have h1 : e = 0 := by omega
      subst h1
      rfl
  | none :: cells, e, hp, he => by
    have he2 : (e + 1) + cells.length ≤ 9 := by
      simp only [List.length_cons] at he
      omega
    unfold printLoop
    rw [rankToContent_printLoop cells (e + 1) (fun x hx => hp x (List.mem_cons_of_mem _ hx)) he2]
    rw [List.replicate_succ', List.append_assoc]
    rfl
  | some (p, col) :: cells, e, hp, he => by
    have he1 : e ≤ 8 := by
      simp only [List.length_cons] at he
      omega
    have he2 : cells.length ≤ 9 := by
      simp only [List.length_cons] at he
      omega
    unfold printLoop
    have hproper : p ≠ Piece.UNKNOWN := hp _ (List.mem_cons_self _ _)
    have hchar := cellOfChar_pieceCharD p col hproper
    have hnd := pieceCharD_not_digit p col hproper
    have hip := rankToContent_printLoop cells 0
      (fun x hx => hp x (List.mem_cons_of_mem _ hx)) (by omega)
    by_cases h0 : e > 0
    · have hce := char_ofNat_digit_toNat e (by omega)
      rw [if_pos h0, natPrint_single e (by omega), List.singleton_append]
      rw [rankToContent_digit _ _ (isDigit_of_bounds _ (by omega) (by omega))]
      rw [hce, rankToContent_letter _ _ hnd, hchar, hip]
      simp
    · rw [if_neg h0]
      have h1 : e = 0 := by omega
      subst h1
      rw [List.nil_append, rankToContent_letter _ _ hnd, hchar, hip]
      simp

/-- Single-bit masking against a left shift is a bit test. -/
theorem and_shift_testBit (x j : Nat) : (x &&& (1 <<< j) != 0) = x.testBit j := by
  rw [Nat.one_shiftLeft, Nat.and_two_pow]
  have h2 : (2 : Nat) ^ j ≠ 0 := by positivity
  cases hx : x.testBit j <;> simp [hx, h2]

/-- Every piece letter denotes a proper cell that prints back to the letter. -/
theorem pieceLetter_cell (c : Char) (h : isPieceLetterB c = true) :
    ∃ p col, cellOfChar c = some (p, col) ∧ pieceCharD p col = c ∧ p ≠ Piece.UNKNOWN := by
  simp only [isPieceLetterB, List.mem_cons, List.not_mem_nil, or_false,
    decide_eq_true_eq] at h
  rcases h with rfl | rfl | rfl | rfl | rfl | rfl | rfl | rfl | rfl | rfl | rfl | rfl <;>
    exact ⟨_, _, rfl, rfl, by decide⟩

/-- Printed piece letters are piece letters. -/
theorem pieceCharD_isPieceLetter (p : Piece) (col : Bool) (hp : p ≠ Piece.UNKNOWN) :
    isPieceLetterB (pieceCharD p col) = true := by
  cases p <;> cases col <;> first | rfl | exact absurd rfl hp

/-- Printing an occupied cell with no pending empties. -/
theorem printLoop_cons_some (p : Piece) (col : Bool)
    (cells : List (Option (Piece × Bool))) :
    printLoop (some (p, col) :: cells) 0 = pieceCharD p col :: printLoop cells 0 := by
  simp [printLoop]

/-- Printing an occupied cell with pending empties flushes them first. -/
theorem printLoop_cons_some_pos (p : Piece) (col : Bool)
    (cells : List (Option (Piece × Bool))) (e : Nat) (he : 0 < e) :
    printLoop (some (p, col) :: cells) e =
      natPrint e ++ pieceCharD p col :: printLoop cells 0 := by
  simp [printLoop, he]

/-- Printing the cell content of a valid rank string reproduces the string. -/
theorem printLoop_rankToContent :
    ∀ (r : List Char) (n : Nat), validRankAux r false n = true →
      printLoop (rankToContent r) 0 = r
  | [], n, hv => rfl
  | [c], n, hv => by
    unfold validRankAux at hv
    by_cases hl : isPieceLetterB c
    · rw [if_pos hl] at hv
      obtain ⟨p, col, hcell, hchar, hpu⟩ := pieceLetter_cell c hl
      rw [rankToContent_letter c [] (isPieceLetter_not_digit c hl), hcell,
        printLoop_cons_some, hchar]
      rfl
    · rw [if_neg hl] at hv
      by_cases hr : 49 ≤ c.toNat ∧ c.toNat ≤ 56
      · rw [if_pos hr] at hv
        have hd : c.isDigit = true := validDigit_isDigit c hr.1 hr.2
        rw [rankToContent_digit c [] hd]
        have hcc : rankToContent [] = ([] : List (Option (Piece × Bool))) := rfl
        rw [hcc, printLoop_replicate (c.toNat - 48) [] 0]
        show printLoop [] (0 + (c.toNat - 48)) = [c]
        unfold printLoop
        rw [if_pos (by omega), natPrint_single _ (by omega)]
        have : (0 : Nat) + (c.toNat - 48) = c.toNat - 48 := by omega
        rw [this, char_digit_roundtrip c (by omega) (by omega)]
      · rw [if_neg hr] at hv
        simp at hv
  | c :: c2 :: cs, n, hv => by
    unfold validRankAux at hv
    by_cases hl : isPieceLetterB c
    · rw [if_pos hl] at hv
      obtain ⟨p, col, hcell, hchar, hpu⟩ := pieceLetter_cell c hl
      rw [rankToContent_letter c (c2 :: cs) (isPieceLetter_not_digit c hl), hcell,
        printLoop_cons_some, hchar, printLoop_rankToContent (c2 :: cs) (n + 1) hv]
    · rw [if_neg hl] at hv
      by_cases hr : 49 ≤ c.toNat ∧ c.toNat ≤ 56
      · rw [if_pos hr] at hv
        rw [Bool.and_eq_true] at hv
        have hv2 := hv.2
        have hd : c.isDigit = true := validDigit_isDigit c hr.1 hr.2
        rw [rankToContent_digit c (c2 :: cs) hd,
          printLoop_replicate (c.toNat - 48) _ 0]
        unfold validRankAux at hv2
        by_cases hl2 : isPieceLetterB c2
        · rw [if_pos hl2] at hv2
          obtain ⟨p, col, hcell, hchar, hpu⟩ := pieceLetter_cell c2 hl2
          rw [rankToContent_letter c2 cs (isPieceLetter_not_digit c2 hl2), hcell,
            printLoop_cons_some_pos p col _ _ (by omega)]
          have h0 : (0 : Nat) + (c.toNat - 48) = c.toNat - 48 := by omega
          rw [h0, natPrint_single _ (by omega), char_digit_roundtrip c (by omega) (by omega),
            hchar, printLoop_rankToContent cs (n + (c.toNat - 48) + 1) hv2]
          rfl
        · rw [if_neg hl2] at hv2
          by_cases hr2 : 49 ≤ c2.toNat ∧ c2.toNat ≤ 56
          · rw [if_pos hr2] at hv2
            simp at hv2
          · rw [if_neg hr2] at hv2
            simp at hv2
      · rw [if_neg hr] at hv
        simp at hv

/-- The printed form of proper cells is a valid rank string. -/
theorem validRank_printLoop :
    ∀ (cells : List (Option (Piece × Bool))) (e n : Nat),
      (∀ cell ∈ cells, properCell cell) → e ≤ 8 → n + e + cells.length = 8 →
      validRankAux (printLoop cells e) false n = true
  | [], e, n, _, he, hsum => by
    simp only [List.length_nil] at hsum
    unfold printLoop
    by_cases h0 : e > 0
    · rw [if_pos h0, natPrint_single e (by omega)]
      unfold validRankAux
      have hct := char_ofNat_digit_toNat e (by omega)
      rw [if_neg (by
        intro hmem
        have hnd := isPieceLetter_not_digit _ hmem
        rw [isDigit_of_bounds _ (by omega) (by omega)] at hnd
        exact absurd hnd (by decide))]
      rw [if_pos (by omega)]
      simp only [Bool.not_false, Bool.true_and]
      unfold validRankAux
      simp only [beq_iff_eq]
      omega
    · rw [if_neg h0]
      unfold validRankAux
      simp only [beq_iff_eq]
      omega
  | none :: cells, e, n, hp, he, hsum => by
    unfold printLoop
    exact validRank_printLoop cells (e + 1) n
      (fun x hx => hp x (List.mem_cons_of_mem _ hx))
      (by simp only [List.length_cons] at hsum; omega)
      (by simp only [List.length_cons] at hsum; omega)
  | some (p, col) :: cells, e, n, hp, he, hsum => by
    have hpu : p ≠ Piece.UNKNOWN := hp _ (List.mem_cons_self _ _)
    have hlet := pieceCharD_isPieceLetter p col hpu
    have hrest : ∀ n2, n2 + 0 + cells.length = 8 →
        validRankAux (printLoop cells 0) false n2 = true := fun n2 hs =>
      validRank_printLoop cells 0 n2
        (fun x hx => hp x (List.mem_cons_of_mem _ hx)) (by omega) hs
    simp only [List.length_cons] at hsum
    unfold printLoop
    by_cases h0 : e > 0
    · rw [if_pos h0, natPrint_single e (by omega), List.singleton_append]
      unfold validRankAux
      have hct := char_ofNat_digit_toNat e (by omega)
      rw [if_neg (by
        intro hmem
        have hnd := isPieceLetter_not_digit _ hmem
        rw [isDigit_of_bounds _ (by omega) (by omega)] at hnd
        exact absurd hnd (by decide))]
      rw [if_pos (by omega)]
      simp only [Bool.not_false, Bool.true_and]
      unfold validRankAux
      rw [if_pos hlet]
      exact hrest _ (by omega)
    · rw [if_neg h0]
      have he0 : e = 0 := by omega
      subst he0
      rw [List.nil_append]
      unfold validRankAux
      rw [if_pos hlet]
      exact hrest _ (by omega)

/-- Parsing a printed numeral as `u32` succeeds with the value. -/
theorem natParseQ_natPrint (n : Nat) : natParseQ (natPrint n) = some n := by
  unfold natParseQ
  rw [if_pos]
  · rw [natParseV_natPrint]
  · constructor
    · unfold natPrint
      by_cases h : n == 0
      · simp [h]
      · rw [if_neg h]
        intro hnil
        have := natPrintAux_succ_ne n n (by simpa using h)
        rw [this] at hnil
        simp at hnil
    · rw [List.all_eq_true]
      intro c hc
      have := natPrint_digits n c hc
      exact isDigit_of_bounds c this.1 this.2

/-- Parsing a canonical numeral as `u32` succeeds with its value. -/
theorem natParseQ_of_validNum (cs : List Char) (h : validNumB cs = true) :
    natParseQ cs = some (natParseV cs) := by
  unfold validNumB at h
  simp only [Bool.and_eq_true, Bool.not_eq_true'] at h
  have hne : cs ≠ [] := by
    intro hnil
    rw [hnil] at h
    simp at h
  unfold natParseQ
  rw [if_pos ⟨hne, h.1.2⟩]

/-- Letter cells are proper. -/
theorem cellOfChar_proper (c : Char) : properCell (cellOfChar c) := by
  unfold cellOfChar
  dsimp only
  split <;> simp [properCell]

/-- Rank content consists of proper cells. -/
theorem rankToContent_proper :
    ∀ (r : List Char), ∀ cell ∈ rankToContent r, properCell cell
  | [], cell, hc => by simp [rankToContent] at hc
  | c :: cs, cell, hc => by
    unfold rankToContent at hc
    by_cases hd : c.isDigit
    · rw [if_pos hd, List.mem_append] at hc
      rcases hc with hc | hc
      · rw [List.eq_of_mem_replicate hc]
        trivial
      · exact rankToContent_proper cs cell hc
    · rw [if_neg hd, List.mem_cons] at hc
      rcases hc with rfl | hc
      · exact cellOfChar_proper c
      · exact rankToContent_proper cs cell hc

/-- Board cells are proper. -/
theorem cellOf_proper (b : Chessboard) (j : Nat) : properCell (cellOf b j) := by
  unfold cellOf
  cases b.getPiece (1 <<< j) <;> simp [properCell]

/-- Rank placement keeps the piece-array length. -/
theorem placeRanks_pieces_length :
    ∀ (cls : List (List (Option (Piece × Bool)))) (i : Nat) (st : PlaceSt),
      (placeRanks cls i st).pieces.length = st.pieces.length
  | [], _, _ => rfl
  | c :: cs, i, st => by
    unfold placeRanks
    rw [placeRanks_pieces_length cs (i + 1) _, applyCells_pieces_length]

/-- Field bits after placing a list of rank contents, for any field that
placing one run updates by its cell predicate. -/
theorem placeRanks_testBit (g : Option (Piece × Bool) → Bool) (F : PlaceSt → Nat)
    (hF : ∀ base cells pos st j, st.pieces.length = 6 →
      (∀ cell ∈ cells, properCell cell) →
      (F (applyCells base cells pos st)).testBit j =
        ((F st).testBit j || cellsBitAt g base cells pos j)) :
    ∀ (cls : List (List (Option (Piece × Bool)))) (i : Nat) (st : PlaceSt) (j : Nat),
      st.pieces.length = 6 → (∀ c ∈ cls, ∀ cell ∈ c, properCell cell) →
      (F (placeRanks cls i st)).testBit j =
        ((F st).testBit j || ranksBitAt g cls i j)
  | [], _, _, _, _, _ => by simp [placeRanks, ranksBitAt]
  | c :: cs, i, st, j, hlen, hprop => by
    unfold placeRanks ranksBitAt
    rw [placeRanks_testBit g F hF cs (i + 1) _ j
      (by rw [applyCells_pieces_length]; exact hlen)
      (fun x hx => hprop x (List.mem_cons_of_mem _ hx))]
    rw [hF _ _ _ _ _ hlen (hprop c (List.mem_cons_self _ _))]
    rw [Bool.or_assoc]

/-- Squares at or above `64 - i * 8` get no contribution from ranks `i` on. -/
theorem ranksBitAt_out (g : Option (Piece × Bool) → Bool) :
    ∀ (cls : List (List (Option (Piece × Bool)))) (i j : Nat),
      (∀ c ∈ cls, c.length = 8) → i + cls.length ≤ 8 → 64 - i * 8 ≤ j →
      ranksBitAt g cls i j = false
  | [], _, _, _, _, _ => rfl
  | c :: cs, i, j, hcl, hle, hj => by
    unfold ranksBitAt
    have hc8 : c.length = 8 := hcl c (List.mem_cons_self _ _)
    simp only [List.length_cons] at hle
    rw [cellsBitAt_out g (56 - i * 8) c 0 j (by omega)]
    rw [ranksBitAt_out g cs (i + 1) j
      (fun x hx => hcl x (List.mem_cons_of_mem _ hx)) (by omega) (by omega)]
    rfl

/-- The contribution at square `56 - idx * 8 + f` is rank `idx`'s cell `f`. -/
theorem ranksBitAt_eval (g : Option (Piece × Bool) → Bool) :
    ∀ (cls : List (List (Option (Piece × Bool)))) (i idx f : Nat),
      (∀ c ∈ cls, c.length = 8) → i ≤ idx → idx < i + cls.length →
      i + cls.length ≤ 8 → f < 8 →
      ranksBitAt g cls i (56 - idx * 8 + f) = g ((cls.getD (idx - i) []).getD f none)
  | [], i, idx, f, _, hlo, hhi, _, _ => by
    simp only [List.length_nil] at hhi
    omega
  | c :: cs, i, idx, f, hcl, hlo, hhi, hle, hf => by
    unfold ranksBitAt
    have hc8 : c.length = 8 := hcl c (List.mem_cons_self _ _)
    simp only [List.length_cons] at hhi hle
    by_cases hi : idx = i
    · subst hi
      have harr : 56 - idx * 8 + f = 56 - idx * 8 + 0 + f := by omega
      rw [harr, cellsBitAt_hit g (56 - idx * 8) c 0 f (by omega)]
      rw [ranksBitAt_out g cs (idx + 1) (56 - idx * 8 + 0 + f)
        (fun x hx => hcl x (List.mem_cons_of_mem _ hx)) (by omega) (by omega)]
      simp
    · rw [cellsBitAt_out g (56 - i * 8) c 0 (56 - idx * 8 + f) (by omega)]
      rw [ranksBitAt_eval g cs (i + 1) idx f
        (fun x hx => hcl x (List.mem_cons_of_mem _ hx)) (by omega) (by omega)
        (by omega) hf]
      have hsub : idx - i = (idx - (i + 1)) + 1 := by omega
      rw [hsub]
      simp

/-- Bits of a field of the fully loaded placement. -/
theorem placeRanks_zero_testBit (g : Option (Piece × Bool) → Bool) (F : PlaceSt → Nat)
    (hF : ∀ base cells pos st j, st.pieces.length = 6 →
      (∀ cell ∈ cells, properCell cell) →
      (F (applyCells base cells pos st)).testBit j =
        ((F st).testBit j || cellsBitAt g base cells pos j))
    (hF0 : F placeZero = 0)
    (cls : List (List (Option (Piece × Bool))))
    (hcls : cls.length = 8)
    (hcl : ∀ c ∈ cls, c.length = 8)
    (hprop : ∀ c ∈ cls, ∀ cell ∈ c, properCell cell)
    (idx f : Nat) (hidx : idx < 8) (hf : f < 8) :
    (F (placeRanks cls 0 placeZero)).testBit (56 - idx * 8 + f) =
      g ((cls.getD idx []).getD f none) := by
  rw [placeRanks_testBit g F hF cls 0 placeZero _ (by rfl) hprop, hF0]
  rw [ranksBitAt_eval g cls 0 idx f hcl (by omega) (by omega) (by omega) hf]
  simp

/-- High bits of a field of the fully loaded placement are clear. -/
theorem placeRanks_zero_testBit_high (g : Option (Piece × Bool) → Bool) (F : PlaceSt → Nat)
    (hF : ∀ base cells pos st j, st.pieces.length = 6 →
      (∀ cell ∈ cells, properCell cell) →
      (F (applyCells base cells pos st)).testBit j =
        ((F st).testBit j || cellsBitAt g base cells pos j))
    (hF0 : F placeZero = 0)
    (cls : List (List (Option (Piece × Bool))))
    (hcls : cls.length = 8)
    (hcl : ∀ c ∈ cls, c.length = 8)
    (hprop : ∀ c ∈ cls, ∀ cell ∈ c, properCell cell)
    (j : Nat) (hj : 64 ≤ j) :
    (F (placeRanks cls 0 placeZero)).testBit j = false := by
  rw [placeRanks_testBit g F hF cls 0 placeZero _ (by rfl) hprop, hF0]
  rw [ranksBitAt_out g cls 0 j hcl (by omega) (by omega)]
  simp

/-- An eight-element list destructured. -/
theorem list_len8 {α : Type} (l : List α) (h : l.length = 8) :
    ∃ x0 x1 x2 x3 x4 x5 x6 x7, l = [x0, x1, x2, x3, x4, x5, x6, x7] := by
  obtain ⟨x0, l0, rfl⟩ := List.exists_of_length_succ l h
  simp only [List.length_cons] at h
  obtain ⟨x1, l1, rfl⟩ := List.exists_of_length_succ l0 (show l0.length = 6 + 1 by omega)
  simp only [List.length_cons] at h
  obtain ⟨x2, l2, rfl⟩ := List.exists_of_length_succ l1 (show l1.length = 5 + 1 by omega)
  simp only [List.length_cons] at h
  obtain ⟨x3, l3, rfl⟩ := List.exists_of_length_succ l2 (show l2.length = 4 + 1 by omega)
  simp only [List.length_cons] at h
  obtain ⟨x4, l4, rfl⟩ := List.exists_of_length_succ l3 (show l3.length = 3 + 1 by omega)
  simp only [List.length_cons] at h
  obtain ⟨x5, l5, rfl⟩ := List.exists_of_length_succ l4 (show l4.length = 2 + 1 by omega)
  simp only [List.length_cons] at h
  obtain ⟨x6, l6, rfl⟩ := List.exists_of_length_succ l5 (show l5.length = 1 + 1 by omega)
  simp only [List.length_cons] at h
  obtain ⟨x7, l7, rfl⟩ := List.exists_of_length_succ l6 (show l6.length = 0 + 1 by omega)
  simp only [List.length_cons] at h
  have hnil : l7 = [] := List.eq_nil_of_length_eq_zero (by omega)
  subst hnil
  exact ⟨x0, x1, x2, x3, x4, x5, x6, x7, rfl⟩

/-- A six-element list destructured. -/
theorem list_len6 {α : Type} (l : List α) (h : l.length = 6) :
    ∃ y0 y1 y2 y3 y4 y5, l = [y0, y1, y2, y3, y4, y5] := by
  obtain ⟨y0, m0, rfl⟩ := List.exists_of_length_succ l h
  simp only [List.length_cons] at h
  obtain ⟨y1, m1, rfl⟩ := List.exists_of_length_succ m0 (show m0.length = 4 + 1 by omega)
  simp only [List.length_cons] at h
  obtain ⟨y2, m2, rfl⟩ := List.exists_of_length_succ m1 (show m1.length = 3 + 1 by omega)
  simp only [List.length_cons] at h
  obtain ⟨y3, m3, rfl⟩ := List.exists_of_length_succ m2 (show m2.length = 2 + 1 by omega)
  simp only [List.length_cons] at h
  obtain ⟨y4, m4, rfl⟩ := List.exists_of_length_succ m3 (show m3.length = 1 + 1 by omega)
  simp only [List.length_cons] at h
  obtain ⟨y5, m5, rfl⟩ := List.exists_of_length_succ m4 (show m4.length = 0 + 1 by omega)
  simp only [List.length_cons] at h
  have hnil : m5 = [] := List.eq_nil_of_length_eq_zero (by omega)
  subst hnil
  exact ⟨y0, y1, y2, y3, y4, y5, rfl⟩

/-- A four-element list destructured. -/
theorem list_len4 {α : Type} (l : List α) (h : l.length = 4) :
    ∃ z0 z1 z2 z3, l = [z0, z1, z2, z3] := by
  obtain ⟨z0, n0, rfl⟩ := List.exists_of_length_succ l h
  simp only [List.length_cons] at h
  obtain ⟨z1, n1, rfl⟩ := List.exists_of_length_succ n0 (show n0.length = 2 + 1 by omega)
  simp only [List.length_cons] at h
  obtain ⟨z2, n2, rfl⟩ := List.exists_of_length_succ n1 (show n1.length = 1 + 1 by omega)
  simp only [List.length_cons] at h
  obtain ⟨z3, n3, rfl⟩ := List.exists_of_length_succ n2 (show n2.length = 0 + 1 by omega)
  simp only [List.length_cons] at h
  have hnil : n3 = [] := List.eq_nil_of_length_eq_zero (by omega)
  subst hnil
  exact ⟨z0, z1, z2, z3, rfl⟩

/-- Bit test of the or-fold of a six-element list. -/
theorem or6_testBit (x0 x1 x2 x3 x4 x5 j : Nat) :
    (List.foldl (fun a x => a ||| x) 0 [x0, x1, x2, x3, x4, x5]).testBit j =
      (x0.testBit j || x1.testBit j || x2.testBit j || x3.testBit j ||
        x4.testBit j || x5.testBit j) := by
  simp [List.foldl, Nat.testBit_or]

/-- `get_piece` either finds no piece board containing the square, or returns
the first hit. -/
theorem getPiece_cases (b : Chessboard) (j : Nat) :
    (b.getPiece (1 <<< j) = Piece.UNKNOWN ∧
      ∀ k, k < 6 → (b.pieces.getD k 0).testBit j = false) ∨
    (∃ p : Piece, p ≠ Piece.UNKNOWN ∧ b.getPiece (1 <<< j) = p ∧
      (b.pieces.getD p.idx 0).testBit j = true) := by
  unfold Chessboard.getPiece
  simp only [and_shift_testBit]
  by_cases h0 : (b.pieces.getD Piece.PAWN.idx 0).testBit j
  · exact Or.inr ⟨Piece.PAWN, by decide, by rw [if_pos h0], h0⟩
  · rw [if_neg (by simpa using h0)]
    by_cases h2 : (b.pieces.getD Piece.KNIGHT.idx 0).testBit j
    · exact Or.inr ⟨Piece.KNIGHT, by decide, by rw [if_pos h2], h2⟩
    · rw [if_neg (by simpa using h2)]
      by_cases h1 : (b.pieces.getD Piece.BISHOP.idx 0).testBit j
      · exact Or.inr ⟨Piece.BISHOP, by decide, by rw [if_pos h1], h1⟩
      · rw [if_neg (by simpa using h1)]
        by_cases h3 : (b.pieces.getD Piece.ROOK.idx 0).testBit j
        · exact Or.inr ⟨Piece.ROOK, by decide, by rw [if_pos h3], h3⟩
        · rw [if_neg (by simpa using h3)]
          by_cases h4 : (b.pieces.getD Piece.QUEEN.idx 0).testBit j
          · exact Or.inr ⟨Piece.QUEEN, by decide, by rw [if_pos h4], h4⟩
          · rw [if_neg (by simpa using h4)]
            by_cases h5 : (b.pieces.getD Piece.KING.idx 0).testBit j
            · exact Or.inr ⟨Piece.KING, by decide, by rw [if_pos h5], h5⟩
            · rw [if_neg (by simpa using h5)]
              refine Or.inl ⟨rfl, fun k hk => ?_⟩
              interval_cases k
              · exact (Bool.not_eq_true _).mp h0
              · exact (Bool.not_eq_true _).mp h1
              · exact (Bool.not_eq_true _).mp h2
              · exact (Bool.not_eq_true _).mp h3
              · exact (Bool.not_eq_true _).mp h4
              · exact (Bool.not_eq_true _).mp h5

/-- Bit test of an or-fold. -/
theorem foldl_or_testBit (j : Nat) :
    ∀ (l : List Nat) (a : Nat),
      (l.foldl (fun a x => a ||| x) a).testBit j = (a.testBit j || l.any (fun x => x.testBit j))
  | [], a => by simp
  | x :: l, a => by
    simp only [List.foldl_cons, List.any_cons]
    rw [foldl_or_testBit j l (a ||| x), Nat.testBit_or, Bool.or_assoc]

/-- The cell `get_fen` reads off a well-formed board measures its masks. -/
theorem cellOf_bits (b : Chessboard) (j : Nat)
    (hlen : b.pieces.length = 6)
    (hdisj : b.white &&& b.black = 0)
    (hor : b.white ||| b.black = b.pieces.foldl (fun a x => a ||| x) 0)
    (hpdisj : ∀ k1, k1 < 6 → ∀ k2, k2 < 6 → k1 ≠ k2 →
      b.pieces.getD k1 0 &&& b.pieces.getD k2 0 = 0) :
    cellWhiteB (cellOf b j) = b.white.testBit j ∧
    cellBlackB (cellOf b j) = b.black.testBit j ∧
    ∀ k, k < 6 → cellPieceB k (cellOf b j) = (b.pieces.getD k 0).testBit j := by
  have horj : (b.white.testBit j || b.black.testBit j) =
      b.pieces.any (fun x => x.testBit j) := by
    rw [← Nat.testBit_or, hor, foldl_or_testBit j b.pieces 0, Nat.zero_testBit,
      Bool.false_or]
  have hwbj : ¬(b.white.testBit j = true ∧ b.black.testBit j = true) := by
    intro ⟨hw, hb⟩
    have := congrArg (fun x => x.testBit j) hdisj
    simp only [Nat.testBit_and, hw, hb, Nat.zero_testBit, Bool.and_self] at this
    exact absurd this (by decide)
  rcases getPiece_cases b j with ⟨hu, hall⟩ | ⟨p, hpu, hgp, hbit⟩
  · have hcell : cellOf b j = none := by
      unfold cellOf
      rw [hu]
    have hany : b.pieces.any (fun x => x.testBit j) = false := by
      rw [List.any_eq_false]
      intro x hx
      obtain ⟨k, hk, hxk⟩ := List.getElem_of_mem hx
      have := hall k (by omega)
      rw [List.getD_eq_getElem b.pieces 0 (by omega), hxk] at this
      simp [this]
    rw [hany] at horj
    simp only [Bool.or_eq_false_iff] at horj
    refine ⟨?_, ?_, ?_⟩
    · rw [hcell, horj.1]
      rfl
    · rw [hcell, horj.2]
      rfl
    · intro k hk
      rw [hcell, hall k hk]
      rfl
  · have hcell : cellOf b j = some (p, b.white &&& (1 <<< j) != 0) := by
      unfold cellOf
      rw [hgp]
      cases p <;> first | rfl | exact absurd rfl hpu
    have hpi : p.idx < 6 := pieceIdx_lt p hpu
    have hocc : (b.white.testBit j || b.black.testBit j) = true := by
      rw [horj, List.any_eq_true]
      refine ⟨b.pieces.getD p.idx 0, ?_, hbit⟩
      rw [List.getD_eq_getElem b.pieces 0 (by omega)]
      exact List.getElem_mem _
    have hflag : (b.white &&& (1 <<< j) != 0) = b.white.testBit j := and_shift_testBit _ _
    refine ⟨?_, ?_, ?_⟩
    · rw [hcell]
      cases hW : b.white.testBit j <;> simp [cellWhiteB, hflag, hW]
    · rw [hcell]
      cases hW : b.white.testBit j
      · rw [hW] at hocc hwbj
        simp only [Bool.false_or] at hocc
        rw [hocc]
        simp only [hflag, hW]
        rfl
      · have hB : b.black.testBit j = false := by
          cases hB : b.black.testBit j
          · rfl
          · exact absurd ⟨hW, hB⟩ hwbj
        rw [hB]
        simp only [hflag, hW]
        rfl
    · intro k hk
      rw [hcell]
      by_cases hkp : k = p.idx
      · subst hkp
        rw [hbit]
        simp [cellPieceB]
      · have hz := hpdisj p.idx hpi k hk (fun h => hkp h.symm)
        have hkbit : (b.pieces.getD k 0).testBit j = false := by
          have := congrArg (fun x => x.testBit j) hz
          simp only [Nat.testBit_and, hbit, Nat.zero_testBit, Bool.true_and] at this
          exact this
        rw [hkbit]
        have hne : (p.idx == k) = false := by
          simp only [beq_eq_false_iff_ne, ne_eq]
          intro hh
          exact hkp hh.symm
        simp [cellPieceB, hne]

/-- `load_fen` on a string that splits into eight chunks, expanded. -/
theorem loadFen_eq (fen : String) (p0 p1 p2 p3 p4 p5 p6 p7 : List Char)
    (h : splitChar '/' fen.data = [p0, p1, p2, p3, p4, p5, p6, p7]) :
    loadFen fen =
      { white := (loadPlace p0 p1 p2 p3 p4 p5 p6 p7).white
        black := (loadPlace p0 p1 p2 p3 p4 p5 p6 p7).black
        staticWhiteAttackMask := 0
        staticBlackAttackMask := 0
        pieces := (loadPlace p0 p1 p2 p3 p4 p5 p6 p7).pieces
        pseudoLegalMoves := []
        dynamicPieceSquares := []
        legalMoves := []
        turn := (splitChar ' ' p7).getD 1 [] == ['w']
        castleRights := castleFold [false, false, false, false] ((splitChar ' ' p7).getD 2 [])
        enPassantSquare :=
          if (splitChar ' ' p7).getD 3 [] != ['-'] then
            some (squareOfName (String.mk ((splitChar ' ' p7).getD 3 [])))
          else none
        halfMove := (natParseQ ((splitChar ' ' p7).getD 4 [])).getD 0
        fullMove := (natParseQ ((splitChar ' ' p7).getD 5 [])).getD 0
        boardRepetitions := [(String.mk (firstToken fen.data), 1)]
        history := [] } := by
  unfold loadFen
  rw [h]
  rfl

/-- `idx` is injective on real pieces. -/
theorem piece_idx_inj (p q : Piece) (hp : p ≠ Piece.UNKNOWN) (h : p.idx = q.idx) :
    p = q := by
  cases p <;> cases q <;> first | rfl | exact absurd rfl hp | exact absurd h (by decide)

/-- A board square whose mask bits agree with a proper cell reads back as that
cell. -/
theorem cellOf_of_bits (b : Chessboard) (j : Nat) (cell : Option (Piece × Bool))
    (hproper : properCell cell)
    (hw : b.white.testBit j = cellWhiteB cell)
    (hp : ∀ k, k < 6 → (b.pieces.getD k 0).testBit j = cellPieceB k cell) :
    cellOf b j = cell := by
  rcases getPiece_cases b j with ⟨hu, hall⟩ | ⟨p, hpu, hgp, hbit⟩
  · have hcell : cellOf b j = none := by
      unfold cellOf
      rw [hu]
    rcases cell with _ | ⟨q, col⟩
    · exact hcell
    · have hqi : q.idx < 6 := pieceIdx_lt q hproper
      have := hall q.idx hqi
      rw [hp q.idx hqi] at this
      simp [cellPieceB] at this
  · have hpi : p.idx < 6 := pieceIdx_lt p hpu
    have hcellp := hp p.idx hpi
    rw [hbit] at hcellp
    rcases cell with _ | ⟨q, col⟩
    · simp [cellPieceB] at hcellp
    · have hqp : q = p := by
        have : (q.idx == p.idx) = true := by simpa [cellPieceB] using hcellp.symm
        exact piece_idx_inj q p hproper (by simpa using this)
      subst hqp
      have hcell : cellOf b j = some (q, b.white &&& (1 <<< j) != 0) := by
        unfold cellOf
        rw [hgp]
        cases q <;> first | rfl | exact absurd rfl hpu
      rw [hcell, and_shift_testBit, hw]
      cases col <;> rfl

/-- Decoding the castling field printed from a four-entry rights list recovers
the list. -/
theorem castleFold_castleString (b : Chessboard) (a0 a1 a2 a3 : Bool)
    (hb : b.castleRights = [a0, a1, a2, a3]) :
    castleFold [false, false, false, false] (castleString b) = [a0, a1, a2, a3] := by
  unfold castleString
  rw [hb]
  cases a0 <;> cases a1 <;> cases a2 <;> cases a3 <;> rfl

/-- Printing the rights decoded from a canonical castling field recovers the
field. -/
theorem castleString_castleFold (cs : List Char) (h : validCastleB cs = true)
    (b : Chessboard) (hb : b.castleRights = castleFold [false, false, false, false] cs) :
    castleString b = cs := by
  simp only [validCastleB, List.mem_cons, List.not_mem_nil, or_false,
    decide_eq_true_eq] at h
  rcases h with rfl | rfl | rfl | rfl | rfl | rfl | rfl | rfl | rfl | rfl | rfl | rfl |
    rfl | rfl | rfl | rfl <;>
  · unfold castleString
    rw [hb]
    rfl

/-- The placement field of `get_fen`, rank by rank. -/
theorem fenPlacement_eq (b : Chessboard) :
    fenPlacement b = joinSep '/'
      [fenRankLoop b 56 (List.range 8) 0, fenRankLoop b 48 (List.range 8) 0,
       fenRankLoop b 40 (List.range 8) 0, fenRankLoop b 32 (List.range 8) 0,
       fenRankLoop b 24 (List.range 8) 0, fenRankLoop b 16 (List.range 8) 0,
       fenRankLoop b 8 (List.range 8) 0, fenRankLoop b 0 (List.range 8) 0] := rfl

/-- A file map over the eight files against a known cell row. -/
theorem map_range8_cells (b : Chessboard) (base : Nat)
    (ct : List (Option (Piece × Bool))) (hl : ct.length = 8)
    (h : ∀ f, f < 8 → cellOf b (base + f) = ct.getD f none) :
    (List.range 8).map (fun f => cellOf b (base + f)) = ct := by
  apply List.ext_getElem
  · simp [hl]
  · intro i h1 h2
    simp only [List.getElem_map, List.getElem_range]
    rw [h i (by simpa using h1), List.getD_eq_getElem ct none (by omega)]

/-- `rankParse` on exactly a valid rank string. -/
theorem rankParse_eq_applyCells2 (idx : Nat) (r : List Char) (st : PlaceSt)
    (hv : validRankB r = true) :
    rankParse idx r 0 st = applyCells (56 - idx * 8) (rankToContent r) 0 st := by
  have := rankParse_eq_applyCells idx r [] false 0 st hv
  rwa [List.append_nil] at this

/-- The empty placement's piece boards are all zero. -/
theorem placeZero_pieces_getD (k : Nat) : placeZero.pieces.getD k 0 = 0 := by
  rcases Nat.lt_or_ge k 6 with hk | hk
  · interval_cases k <;> rfl
  · obtain ⟨m, rfl⟩ : ∃ m, k = m + 6 := ⟨k - 6, by omega⟩
    rfl

/-- Encoding the decoding of a canonical en-passant-free FEN reproduces it. -/
theorem getFen_loadFen_of_valid (s : String) (h : validFenNoEp s = true) :
    getFen (loadFen s) = s := by
  unfold validFenNoEp at h
  simp only [Bool.and_eq_true, beq_iff_eq, Bool.or_eq_true, decide_eq_true_eq] at h
  obtain ⟨⟨hlen8, hranks⟩, ⟨⟨⟨⟨⟨⟨⟨hf6, hvr7⟩, hturn⟩, hcas⟩, hepf⟩, hvn4⟩, hlt4⟩, hvn5⟩, hlt5⟩ := h
  obtain ⟨p0, p1, p2, p3, p4, p5, p6, p7, hsplit⟩ := list_len8 _ hlen8
  rw [hsplit] at hranks hf6 hvr7 hturn hcas hepf hvn4 hvn5
  have hg7 : ([p0, p1, p2, p3, p4, p5, p6, p7] : List (List Char)).getD 7 [] = p7 := rfl
  rw [hg7] at hf6 hvr7 hturn hcas hepf hvn4 hvn5
  obtain ⟨q7, t, cas, epf, hm, fm, hfsplit⟩ := list_len6 _ hf6
  rw [hfsplit] at hvr7 hturn hcas hepf hvn4 hvn5
  have e0 : ([q7, t, cas, epf, hm, fm] : List (List Char)).getD 0 [] = q7 := rfl
  have e1 : ([q7, t, cas, epf, hm, fm] : List (List Char)).getD 1 [] = t := rfl
  have e2 : ([q7, t, cas, epf, hm, fm] : List (List Char)).getD 2 [] = cas := rfl
  have e3 : ([q7, t, cas, epf, hm, fm] : List (List Char)).getD 3 [] = epf := rfl
  have e4 : ([q7, t, cas, epf, hm, fm] : List (List Char)).getD 4 [] = hm := rfl
  have e5 : ([q7, t, cas, epf, hm, fm] : List (List Char)).getD 5 [] = fm := rfl
  rw [e0] at hvr7
  rw [e1] at hturn
  rw [e2] at hcas
  rw [e3] at hepf
  rw [e4] at hvn4
  rw [e5] at hvn5
  subst hepf
  rw [show List.take 7 [p0, p1, p2, p3, p4, p5, p6, p7] = [p0, p1, p2, p3, p4, p5, p6]
    from rfl] at hranks
  simp only [List.all_cons, List.all_nil, Bool.and_eq_true, Bool.and_true] at hranks
  obtain ⟨hvr0, hvr1, hvr2, hvr3, hvr4, hvr5, hvr6⟩ := hranks
  have hjs := joinSep_splitChar ' ' p7
  rw [hfsplit] at hjs
  have hp7 : p7 = joinSep ' ' [q7, t, cas, ['-'], hm, fm] := hjs.symm
  have hp7app : p7 = q7 ++ (' ' :: joinSep ' ' [t, cas, ['-'], hm, fm]) := hp7
  have hload := loadFen_eq s p0 p1 p2 p3 p4 p5 p6 p7 hsplit
  have hct0 : (rankToContent p0).length = 8 := by
    have := validRank_content_length p0 false 0 hvr0
    omega
  have hct1 : (rankToContent p1).length = 8 := by
    have := validRank_content_length p1 false 0 hvr1
    omega
  have hct2 : (rankToContent p2).length = 8 := by
    have := validRank_content_length p2 false 0 hvr2
    omega
  have hct3 : (rankToContent p3).length = 8 := by
    have := validRank_content_length p3 false 0 hvr3
    omega
  have hct4 : (rankToContent p4).length = 8 := by
    have := validRank_content_length p4 false 0 hvr4
    omega
  have hct5 : (rankToContent p5).length = 8 := by
    have := validRank_content_length p5 false 0 hvr5
    omega
  have hct6 : (rankToContent p6).length = 8 := by
    have := validRank_content_length p6 false 0 hvr6
    omega
  have hct7 : (rankToContent q7).length = 8 := by
    have := validRank_content_length q7 false 0 hvr7
    omega
  set cls : List (List (Option (Piece × Bool))) :=
    [rankToContent p0, rankToContent p1, rankToContent p2, rankToContent p3,
     rankToContent p4, rankToContent p5, rankToContent p6, rankToContent q7] with hclsdef
  have hcls_len : ∀ c ∈ cls, c.length = 8 := by
    intro c hc
    rw [hclsdef] at hc
    simp only [List.mem_cons, List.not_mem_nil, or_false] at hc
    rcases hc with rfl | rfl | rfl | rfl | rfl | rfl | rfl | rfl <;> assumption
  have hcls_prop : ∀ c ∈ cls, ∀ cell ∈ c, properCell cell := by
    intro c hc
    rw [hclsdef] at hc
    simp only [List.mem_cons, List.not_mem_nil, or_false] at hc
    rcases hc with rfl | rfl | rfl | rfl | rfl | rfl | rfl | rfl <;>
      exact rankToContent_proper _
  have hlp : loadPlace p0 p1 p2 p3 p4 p5 p6 p7 = placeRanks cls 0 placeZero := by
    unfold loadPlace
    rw [rankParse_eq_applyCells2 0 p0 _ hvr0, rankParse_eq_applyCells2 1 p1 _ hvr1,
      rankParse_eq_applyCells2 2 p2 _ hvr2, rankParse_eq_applyCells2 3 p3 _ hvr3,
      rankParse_eq_applyCells2 4 p4 _ hvr4, rankParse_eq_applyCells2 5 p5 _ hvr5,
      rankParse_eq_applyCells2 6 p6 _ hvr6]
    rw [hp7app,
      rankParse_eq_applyCells 7 q7 (' ' :: joinSep ' ' [t, cas, ['-'], hm, fm]) false 0 _ hvr7]
    rfl
  have hBw : (loadFen s).white = (placeRanks cls 0 placeZero).white := by
    rw [hload, hlp]
  have hBp : (loadFen s).pieces = (placeRanks cls 0 placeZero).pieces := by
    rw [hload, hlp]
  have hcells : ∀ idx f : Nat, idx < 8 → f < 8 →
      cellOf (loadFen s) (56 - idx * 8 + f) = (cls.getD idx []).getD f none := by
    intro idx f hidx hf
    have hmem1 : cls.getD idx [] ∈ cls := by
      rw [List.getD_eq_getElem cls [] (by rw [hclsdef]; simpa using hidx)]
      exact List.getElem_mem _
    have hlenc : (cls.getD idx []).length = 8 := hcls_len _ hmem1
    apply cellOf_of_bits
    · have hmem2 : (cls.getD idx []).getD f none ∈ cls.getD idx [] := by
        rw [List.getD_eq_getElem _ none (by omega)]
        exact List.getElem_mem _
      exact hcls_prop _ hmem1 _ hmem2
    · rw [hBw]
      exact placeRanks_zero_testBit cellWhiteB PlaceSt.white
        (fun base cells pos st j _ _ => applyCells_white_testBit base cells pos st j)
        rfl cls (by rw [hclsdef]; rfl) hcls_len hcls_prop idx f hidx hf
    · intro k hk
      rw [hBp]
      exact placeRanks_zero_testBit (cellPieceB k) (fun st => st.pieces.getD k 0)
        (fun base cells pos st j hlen hprop =>
          applyCells_pieces_testBit base cells pos st k j hlen hk hprop)
        (placeZero_pieces_getD k) cls (by rw [hclsdef]; rfl) hcls_len hcls_prop idx f hidx hf
  have hrk : ∀ idx : Nat, idx < 8 → ∀ r : List Char, validRankB r = true →
      rankToContent r = cls.getD idx [] →
      fenRankLoop (loadFen s) (56 - idx * 8) (List.range 8) 0 = r := by
    intro idx hidx r hvr heq
    rw [fenRankLoop_eq_printLoop]
    have hlenr : (rankToContent r).length = 8 := by
      have := validRank_content_length r false 0 hvr
      omega
    have hfun : ∀ f, f < 8 →
        cellOf (loadFen s) (56 - idx * 8 + f) = (rankToContent r).getD f none := by
      intro f hf
      rw [hcells idx f hidx hf, heq]
    rw [map_range8_cells (loadFen s) (56 - idx * 8) (rankToContent r) hlenr hfun]
    exact printLoop_rankToContent r 0 hvr
  have hr0 : fenRankLoop (loadFen s) 56 (List.range 8) 0 = p0 := hrk 0 (by omega) p0 hvr0 rfl
  have hr1 : fenRankLoop (loadFen s) 48 (List.range 8) 0 = p1 := hrk 1 (by omega) p1 hvr1 rfl
  have hr2 : fenRankLoop (loadFen s) 40 (List.range 8) 0 = p2 := hrk 2 (by omega) p2 hvr2 rfl
  have hr3 : fenRankLoop (loadFen s) 32 (List.range 8) 0 = p3 := hrk 3 (by omega) p3 hvr3 rfl
  have hr4 : fenRankLoop (loadFen s) 24 (List.range 8) 0 = p4 := hrk 4 (by omega) p4 hvr4 rfl
  have hr5 : fenRankLoop (loadFen s) 16 (List.range 8) 0 = p5 := hrk 5 (by omega) p5 hvr5 rfl
  have hr6 : fenRankLoop (loadFen s) 8 (List.range 8) 0 = p6 := hrk 6 (by omega) p6 hvr6 rfl
  have hr7 : fenRankLoop (loadFen s) 0 (List.range 8) 0 = q7 := hrk 7 (by omega) q7 hvr7 rfl
  have hturnstr : (if (loadFen s).turn then ['w'] else ['b']) = t := by
    rcases hturn with rfl | rfl <;> (rw [hload, hfsplit]; rfl)
  have hep : (loadFen s).enPassantSquare = none := by
    rw [hload, hfsplit]
    rfl
  have hcastle : castleString (loadFen s) = cas :=
    castleString_castleFold cas hcas (loadFen s) (by rw [hload, hfsplit]; rfl)
  have hhalf : (loadFen s).halfMove = natParseV hm := by
    rw [hload, hfsplit]
    show (natParseQ (([q7, t, cas, ['-'], hm, fm] : List (List Char)).getD 4 [])).getD 0 = _
    rw [e4, natParseQ_of_validNum hm hvn4]
    rfl
  have hfull : (loadFen s).fullMove = natParseV fm := by
    rw [hload, hfsplit]
    show (natParseQ (([q7, t, cas, ['-'], hm, fm] : List (List Char)).getD 5 [])).getD 0 = _
    rw [e5, natParseQ_of_validNum fm hvn5]
    rfl
  apply String.ext
  rw [show (getFen (loadFen s)).data =
      fenPlacement (loadFen s) ++ ' ' :: (if (loadFen s).turn then ['w'] else ['b']) ++
        ' ' :: castleString (loadFen s) ++
        ' ' :: (match (loadFen s).enPassantSquare with
          | some square => (squareName (squareOfMask square)).data
          | none => ['-']) ++
        ' ' :: natPrint (loadFen s).halfMove ++ ' ' :: natPrint (loadFen s).fullMove
    from rfl]
  rw [hturnstr, hep, hcastle, hhalf, hfull,
    natPrint_natParseV hm hvn4, natPrint_natParseV fm hvn5]
  rw [show (match (none : Option Nat) with
      | some square => (squareName (squareOfMask square)).data
      | none => ['-']) = ['-'] from rfl]
  rw [fenPlacement_eq, hr0, hr1, hr2, hr3, hr4, hr5, hr6, hr7]
  conv_rhs => rw [← joinSep_splitChar '/' s.data, hsplit]
  rw [show joinSep '/' [p0, p1, p2, p3, p4, p5, p6, p7] =
    p0 ++ '/' :: (p1 ++ '/' :: (p2 ++ '/' :: (p3 ++ '/' :: (p4 ++ '/' :: (p5 ++ '/' ::
      (p6 ++ '/' :: p7)))))) from rfl]
  rw [show joinSep '/' [p0, p1, p2, p3, p4, p5, p6, q7] =
    p0 ++ '/' :: (p1 ++ '/' :: (p2 ++ '/' :: (p3 ++ '/' :: (p4 ++ '/' :: (p5 ++ '/' ::
      (p6 ++ '/' :: q7)))))) from rfl]
  rw [hp7app]
  rw [show joinSep ' ' [t, cas, ['-'], hm, fm] =
    t ++ ' ' :: (cas ++ ' ' :: (['-'] ++ ' ' :: (hm ++ ' ' :: fm))) from rfl]
  simp [List.append_assoc]

/-- Piece letters are at code 66 or above. -/
theorem pieceLetter_toNat48 (c : Char) (h : isPieceLetterB c = true) : 48 ≤ c.toNat := by
  simp only [isPieceLetterB, List.mem_cons, List.not_mem_nil, or_false,
    decide_eq_true_eq] at h
  rcases h with rfl | rfl | rfl | rfl | rfl | rfl | rfl | rfl | rfl | rfl | rfl | rfl <;> decide

/-- Every character printed for a run of proper cells is at code 48 or above. -/
theorem printLoop_char_ge :
    ∀ (cells : List (Option (Piece × Bool))) (e : Nat),
      (∀ cell ∈ cells, properCell cell) → ∀ c ∈ printLoop cells e, 48 ≤ c.toNat
  | [], e, _, c, hc => by
    unfold printLoop at hc
    by_cases h0 : e > 0
    · rw [if_pos h0] at hc
      exact (natPrint_digits e c hc).1
    · rw [if_neg h0] at hc
      simp at hc
  | none :: cells, e, hp, c, hc => by
    unfold printLoop at hc
    exact printLoop_char_ge cells (e + 1)
      (fun x hx => hp x (List.mem_cons_of_mem _ hx)) c hc
  | some (p, col) :: cells, e, hp, c, hc => by
    unfold printLoop at hc
    rw [List.mem_append, List.mem_cons] at hc
    rcases hc with hc | hc | hc
    · by_cases h0 : e > 0
      · rw [if_pos h0] at hc
        exact (natPrint_digits e c hc).1
      · rw [if_neg h0] at hc
        simp at hc
    · subst hc
      exact pieceLetter_toNat48 _
        (pieceCharD_isPieceLetter p col (hp _ (List.mem_cons_self _ _)))
    · exact printLoop_char_ge cells 0
        (fun x hx => hp x (List.mem_cons_of_mem _ hx)) c hc

/-- Printed rank characters differ from any low-code separator. -/
theorem printLoop_ne_sep (cells : List (Option (Piece × Bool))) (e : Nat)
    (hp : ∀ cell ∈ cells, properCell cell) (sep : Char) (hs : sep.toNat < 48) :
    ∀ c ∈ printLoop cells e, c ≠ sep := by
  intro c hc he
  subst he
  have := printLoop_char_ge cells e hp c hc
  omega

/-- Decoding the encoding of a well-formed en-passant-free position reproduces
every FEN-visible field. -/
theorem loadFen_getFen_of_WF (b : Chessboard) (hWF : WFPos b)
    (hep : b.enPassantSquare = none) :
    (loadFen (getFen b)).white = b.white ∧ (loadFen (getFen b)).black = b.black ∧
    (loadFen (getFen b)).pieces = b.pieces ∧ (loadFen (getFen b)).turn = b.turn ∧
    (loadFen (getFen b)).castleRights = b.castleRights ∧
    (loadFen (getFen b)).enPassantSquare = b.enPassantSquare ∧
    (loadFen (getFen b)).halfMove = b.halfMove ∧
    (loadFen (getFen b)).fullMove = b.fullMove := by
  obtain ⟨hlen6, hlen4, hdisj, hor, hpdisj, hwlt, hblt, hplt, hhlt, hflt⟩ := hWF
  have hprop0 : ∀ cell ∈ (List.range 8).map (fun f => cellOf b (56 + f)), properCell cell := by
    intro cell hc
    simp only [List.mem_map] at hc
    obtain ⟨f, hf, rfl⟩ := hc
    exact cellOf_proper b _
  have hvq0 : validRankB (fenRankLoop b 56 (List.range 8) 0) = true := by
    rw [fenRankLoop_eq_printLoop]
    exact validRank_printLoop _ 0 0 hprop0 (by omega) (by simp)
  have hcon0 : rankToContent (fenRankLoop b 56 (List.range 8) 0) = (List.range 8).map (fun f => cellOf b (56 + f)) := by
    rw [fenRankLoop_eq_printLoop]
    have := rankToContent_printLoop ((List.range 8).map (fun f => cellOf b (56 + f))) 0 hprop0 (by simp)
    simpa using this
  have hno0 : ∀ c ∈ fenRankLoop b 56 (List.range 8) 0, c ≠ '/' := by
    rw [fenRankLoop_eq_printLoop]
    exact printLoop_ne_sep _ 0 hprop0 '/' (by decide)
  have hprop1 : ∀ cell ∈ (List.range 8).map (fun f => cellOf b (48 + f)), properCell cell := by
    intro cell hc
    simp only [List.mem_map] at hc
    obtain ⟨f, hf, rfl⟩ := hc
    exact cellOf_proper b _
  have hvq1 : validRankB (fenRankLoop b 48 (List.range 8) 0) = true := by
    rw [fenRankLoop_eq_printLoop]
    exact validRank_printLoop _ 0 0 hprop1 (by omega) (by simp)
  have hcon1 : rankToContent (fenRankLoop b 48 (List.range 8) 0) = (List.range 8).map (fun f => cellOf b (48 + f)) := by
    rw [fenRankLoop_eq_printLoop]
    have := rankToContent_printLoop ((List.range 8).map (fun f => cellOf b (48 + f))) 0 hprop1 (by simp)
    simpa using this
  have hno1 : ∀ c ∈ fenRankLoop b 48 (List.range 8) 0, c ≠ '/' := by
    rw [fenRankLoop_eq_printLoop]
    exact printLoop_ne_sep _ 0 hprop1 '/' (by decide)
  have hprop2 : ∀ cell ∈ (List.range 8).map (fun f => cellOf b (40 + f)), properCell cell := by
    intro cell hc
    simp only [List.mem_map] at hc
    obtain ⟨f, hf, rfl⟩ := hc
    exact cellOf_proper b _
  have hvq2 : validRankB (fenRankLoop b 40 (List.range 8) 0) = true := by
    rw [fenRankLoop_eq_printLoop]
    exact validRank_printLoop _ 0 0 hprop2 (by omega) (by simp)
  have hcon2 : rankToContent (fenRankLoop b 40 (List.range 8) 0) = (List.range 8).map (fun f => cellOf b (40 + f)) := by
    rw [fenRankLoop_eq_printLoop]
    have := rankToContent_printLoop ((List.range 8).map (fun f => cellOf b (40 + f))) 0 hprop2 (by simp)
    simpa using this
  have hno2 : ∀ c ∈ fenRankLoop b 40 (List.range 8) 0, c ≠ '/' := by
    rw [fenRankLoop_eq_printLoop]
    exact printLoop_ne_sep _ 0 hprop2 '/' (by decide)
  have hprop3 : ∀ cell ∈ (List.range 8).map (fun f => cellOf b (32 + f)), properCell cell := by
    intro cell hc
    simp only [List.mem_map] at hc
    obtain ⟨f, hf, rfl⟩ := hc
    exact cellOf_proper b _
  have hvq3 : validRankB (fenRankLoop b 32 (List.range 8) 0) = true := by
    rw [fenRankLoop_eq_printLoop]
    exact validRank_printLoop _ 0 0 hprop3 (by omega) (by simp)
  have hcon3 : rankToContent (fenRankLoop b 32 (List.range 8) 0) = (List.range 8).map (fun f => cellOf b (32 + f)) := by
    rw [fenRankLoop_eq_printLoop]
    have := rankToContent_printLoop ((List.range 8).map (fun f => cellOf b (32 + f))) 0 hprop3 (by simp)
    simpa using this
  have hno3 : ∀ c ∈ fenRankLoop b 32 (List.range 8) 0, c ≠ '/' := by
    rw [fenRankLoop_eq_printLoop]
    exact printLoop_ne_sep _ 0 hprop3 '/' (by decide)
  have hprop4 : ∀ cell ∈ (List.range 8).map (fun f => cellOf b (24 + f)), properCell cell := by
    intro cell hc
    simp only [List.mem_map] at hc
    obtain ⟨f, hf, rfl⟩ := hc
    exact cellOf_proper b _
  have hvq4 : validRankB (fenRankLoop b 24 (List.range 8) 0) = true := by
    rw [fenRankLoop_eq_printLoop]
    exact validRank_printLoop _ 0 0 hprop4 (by omega) (by simp)
  have hcon4 : rankToContent (fenRankLoop b 24 (List.range 8) 0) = (List.range 8).map (fun f => cellOf b (24 + f)) := by
    rw [fenRankLoop_eq_printLoop]
    have := rankToContent_printLoop ((List.range 8).map (fun f => cellOf b (24 + f))) 0 hprop4 (by simp)
    simpa using this
  have hno4 : ∀ c ∈ fenRankLoop b 24 (List.range 8) 0, c ≠ '/' := by
    rw [fenRankLoop_eq_printLoop]
    exact printLoop_ne_sep _ 0 hprop4 '/' (by decide)
  have hprop5 : ∀ cell ∈ (List.range 8).map (fun f => cellOf b (16 + f)), properCell cell := by
    intro cell hc
    simp only [List.mem_map] at hc
    obtain ⟨f, hf, rfl⟩ := hc
    exact cellOf_proper b _
  have hvq5 : validRankB (fenRankLoop b 16 (List.range 8) 0) = true := by
    rw [fenRankLoop_eq_printLoop]
    exact validRank_printLoop _ 0 0 hprop5 (by omega) (by simp)
  have hcon5 : rankToContent (fenRankLoop b 16 (List.range 8) 0) = (List.range 8).map (fun f => cellOf b (16 + f)) := by
    rw [fenRankLoop_eq_printLoop]
    have := rankToContent_printLoop ((List.range 8).map (fun f => cellOf b (16 + f))) 0 hprop5 (by simp)
    simpa using this
  have hno5 : ∀ c ∈ fenRankLoop b 16 (List.range 8) 0, c ≠ '/' := by
    rw [fenRankLoop_eq_printLoop]
    exact printLoop_ne_sep _ 0 hprop5 '/' (by decide)
  have hprop6 : ∀ cell ∈ (List.range 8).map (fun f => cellOf b (8 + f)), properCell cell := by
    intro cell hc
    simp only [List.mem_map] at hc
    obtain ⟨f, hf, rfl⟩ := hc
    exact cellOf_proper b _
  have hvq6 : validRankB (fenRankLoop b 8 (List.range 8) 0) = true := by
    rw [fenRankLoop_eq_printLoop]
    exact validRank_printLoop _ 0 0 hprop6 (by omega) (by simp)
  have hcon6 : rankToContent (fenRankLoop b 8 (List.range 8) 0) = (List.range 8).map (fun f => cellOf b (8 + f)) := by
    rw [fenRankLoop_eq_printLoop]
    have := rankToContent_printLoop ((List.range 8).map (fun f => cellOf b (8 + f))) 0 hprop6 (by simp)
    simpa using this
  have hno6 : ∀ c ∈ fenRankLoop b 8 (List.range 8) 0, c ≠ '/' := by
    rw [fenRankLoop_eq_printLoop]
    exact printLoop_ne_sep _ 0 hprop6 '/' (by decide)
  have hprop7 : ∀ cell ∈ (List.range 8).map (fun f => cellOf b (0 + f)), properCell cell := by
    intro cell hc
    simp only [List.mem_map] at hc
    obtain ⟨f, hf, rfl⟩ := hc
    exact cellOf_proper b _
  have hvq7 : validRankB (fenRankLoop b 0 (List.range 8) 0) = true := by
    rw [fenRankLoop_eq_printLoop]
    exact validRank_printLoop _ 0 0 hprop7 (by omega) (by simp)
  have hcon7 : rankToContent (fenRankLoop b 0 (List.range 8) 0) = (List.range 8).map (fun f => cellOf b (0 + f)) := by
    rw [fenRankLoop_eq_printLoop]
    have := rankToContent_printLoop ((List.range 8).map (fun f => cellOf b (0 + f))) 0 hprop7 (by simp)
    simpa using this
  have hno7 : ∀ c ∈ fenRankLoop b 0 (List.range 8) 0, c ≠ '/' := by
    rw [fenRankLoop_eq_printLoop]
    exact printLoop_ne_sep _ 0 hprop7 '/' (by decide)
  have hnosp7 : ∀ c ∈ fenRankLoop b 0 (List.range 8) 0, c ≠ ' ' := by
    rw [fenRankLoop_eq_printLoop]
    exact printLoop_ne_sep _ 0 hprop7 ' ' (by decide)
  obtain ⟨a0, a1, a2, a3, hcr⟩ := list_len4 b.castleRights hlen4
  have hcasch : ∀ c ∈ castleString b, c ≠ '/' ∧ c ≠ ' ' := by
    unfold castleString
    rw [hcr]
    cases a0 <;> cases a1 <;> cases a2 <;> cases a3 <;> decide
  have hts : ∀ c ∈ (if b.turn then ['w'] else ['b']), c ≠ '/' ∧ c ≠ ' ' := by
    cases b.turn <;> decide
  have hnum : ∀ (n : Nat), ∀ c ∈ natPrint n, c ≠ '/' ∧ c ≠ ' ' := by
    intro n c hc
    have hd := natPrint_digits n c hc
    have h1 : ('/').toNat = 47 := rfl
    have h2 : (' ').toNat = 32 := rfl
    constructor <;> (intro he; subst he; omega)
  have hdata0 : (getFen b).data =
      fenPlacement b ++ ' ' :: (if b.turn then ['w'] else ['b']) ++ ' ' :: castleString b ++
        ' ' :: ['-'] ++ ' ' :: natPrint b.halfMove ++ ' ' :: natPrint b.fullMove := by
    rw [show (getFen b).data =
      fenPlacement b ++ ' ' :: (if b.turn then ['w'] else ['b']) ++ ' ' :: castleString b ++
        ' ' :: (match b.enPassantSquare with
          | some square => (squareName (squareOfMask square)).data
          | none => ['-']) ++
        ' ' :: natPrint b.halfMove ++ ' ' :: natPrint b.fullMove from rfl]
    rw [hep]
  have hdata : (getFen b).data =
      fenRankLoop b 56 (List.range 8) 0 ++ '/' :: (fenRankLoop b 48 (List.range 8) 0 ++ '/' :: (fenRankLoop b 40 (List.range 8) 0 ++ '/' :: (fenRankLoop b 32 (List.range 8) 0 ++ '/' :: (fenRankLoop b 24 (List.range 8) 0 ++
        '/' :: (fenRankLoop b 16 (List.range 8) 0 ++ '/' :: (fenRankLoop b 8 (List.range 8) 0 ++ '/' :: (fenRankLoop b 0 (List.range 8) 0 ++ ' ' :: ((if b.turn then ['w'] else ['b']) ++ ' ' :: (castleString b ++ ' ' :: (['-'] ++ ' ' :: (natPrint b.halfMove ++ ' ' :: natPrint b.fullMove))))))))))) := by
    rw [hdata0, fenPlacement_eq]
    rw [show joinSep '/' [fenRankLoop b 56 (List.range 8) 0, fenRankLoop b 48 (List.range 8) 0, fenRankLoop b 40 (List.range 8) 0, fenRankLoop b 32 (List.range 8) 0, fenRankLoop b 24 (List.range 8) 0, fenRankLoop b 16 (List.range 8) 0, fenRankLoop b 8 (List.range 8) 0, fenRankLoop b 0 (List.range 8) 0] =
      fenRankLoop b 56 (List.range 8) 0 ++ '/' :: (fenRankLoop b 48 (List.range 8) 0 ++ '/' :: (fenRankLoop b 40 (List.range 8) 0 ++ '/' :: (fenRankLoop b 32 (List.range 8) 0 ++ '/' :: (fenRankLoop b 24 (List.range 8) 0 ++
        '/' :: (fenRankLoop b 16 (List.range 8) 0 ++ '/' :: (fenRankLoop b 8 (List.range 8) 0 ++ '/' :: fenRankLoop b 0 (List.range 8) 0)))))) from rfl]
    simp only [List.append_assoc, List.cons_append, List.nil_append]
  have hnoCHUNK : ∀ c ∈ (fenRankLoop b 0 (List.range 8) 0 ++ ' ' :: ((if b.turn then ['w'] else ['b']) ++ ' ' :: (castleString b ++ ' ' :: (['-'] ++ ' ' :: (natPrint b.halfMove ++ ' ' :: natPrint b.fullMove))))), c ≠ '/' := by
    intro c hc
    simp only [List.mem_append, List.mem_cons, List.not_mem_nil, or_false] at hc
    rcases hc with hc | rfl | hc | rfl | hc | rfl | rfl | rfl | hc | rfl | hc
    · exact hno7 c hc
    · decide
    · exact (hts c hc).1
    · decide
    · exact (hcasch c hc).1
    · decide
    · decide
    · decide
    · exact (hnum _ c hc).1
    · decide
    · exact (hnum _ c hc).1
  have hsplit : splitChar '/' (getFen b).data =
      [fenRankLoop b 56 (List.range 8) 0, fenRankLoop b 48 (List.range 8) 0, fenRankLoop b 40 (List.range 8) 0, fenRankLoop b 32 (List.range 8) 0, fenRankLoop b 24 (List.range 8) 0, fenRankLoop b 16 (List.range 8) 0, fenRankLoop b 8 (List.range 8) 0, (fenRankLoop b 0 (List.range 8) 0 ++ ' ' :: ((if b.turn then ['w'] else ['b']) ++ ' ' :: (castleString b ++ ' ' :: (['-'] ++ ' ' :: (natPrint b.halfMove ++ ' ' :: natPrint b.fullMove)))))] := by
    rw [hdata, splitChar_head '/' _ _ hno0, splitChar_head '/' _ _ hno1,
      splitChar_head '/' _ _ hno2, splitChar_head '/' _ _ hno3,
      splitChar_head '/' _ _ hno4, splitChar_head '/' _ _ hno5,
      splitChar_head '/' _ _ hno6, splitChar_no_sep '/' _ hnoCHUNK]
  have hfsplit : splitChar ' ' (fenRankLoop b 0 (List.range 8) 0 ++ ' ' :: ((if b.turn then ['w'] else ['b']) ++ ' ' :: (castleString b ++ ' ' :: (['-'] ++ ' ' :: (natPrint b.halfMove ++ ' ' :: natPrint b.fullMove))))) =
      [fenRankLoop b 0 (List.range 8) 0, (if b.turn then ['w'] else ['b']), castleString b, ['-'], natPrint b.halfMove, natPrint b.fullMove] := by
    rw [splitChar_head ' ' _ _ hnosp7,
      splitChar_head ' ' _ _ (fun c hc => (hts c hc).2),
      splitChar_head ' ' _ _ (fun c hc => (hcasch c hc).2),
      splitChar_head ' ' ['-'] _ (by decide),
      splitChar_head ' ' _ _ (fun c hc => (hnum _ c hc).2),
      splitChar_no_sep ' ' _ (fun c hc => (hnum _ c hc).2)]
  have hload := loadFen_eq (getFen b) _ _ _ _ _ _ _ _ hsplit
  have hlp : loadPlace (fenRankLoop b 56 (List.range 8) 0) (fenRankLoop b 48 (List.range 8) 0) (fenRankLoop b 40 (List.range 8) 0) (fenRankLoop b 32 (List.range 8) 0) (fenRankLoop b 24 (List.range 8) 0) (fenRankLoop b 16 (List.range 8) 0) (fenRankLoop b 8 (List.range 8) 0) (fenRankLoop b 0 (List.range 8) 0 ++ ' ' :: ((if b.turn then ['w'] else ['b']) ++ ' ' :: (castleString b ++ ' ' :: (['-'] ++ ' ' :: (natPrint b.halfMove ++ ' ' :: natPrint b.fullMove))))) =
      placeRanks [(List.range 8).map (fun f => cellOf b (56 + f)), (List.range 8).map (fun f => cellOf b (48 + f)), (List.range 8).map (fun f => cellOf b (40 + f)), (List.range 8).map (fun f => cellOf b (32 + f)), (List.range 8).map (fun f => cellOf b (24 + f)), (List.range 8).map (fun f => cellOf b (16 + f)), (List.range 8).map (fun f => cellOf b (8 + f)), (List.range 8).map (fun f => cellOf b (0 + f))] 0 placeZero := by
    unfold loadPlace
    rw [rankParse_eq_applyCells2 0 _ _ hvq0, rankParse_eq_applyCells2 1 _ _ hvq1,
      rankParse_eq_applyCells2 2 _ _ hvq2, rankParse_eq_applyCells2 3 _ _ hvq3,
      rankParse_eq_applyCells2 4 _ _ hvq4, rankParse_eq_applyCells2 5 _ _ hvq5,
      rankParse_eq_applyCells2 6 _ _ hvq6,
      rankParse_eq_applyCells 7 _ (' ' :: ((if b.turn then ['w'] else ['b']) ++ ' ' :: (castleString b ++ ' ' :: (['-'] ++ ' ' :: (natPrint b.halfMove ++ ' ' :: natPrint b.fullMove))))) false 0 _ hvq7]
    rw [hcon0, hcon1, hcon2, hcon3, hcon4, hcon5, hcon6, hcon7]
    rfl
  have hcl8 : ([(List.range 8).map (fun f => cellOf b (56 + f)), (List.range 8).map (fun f => cellOf b (48 + f)), (List.range 8).map (fun f => cellOf b (40 + f)), (List.range 8).map (fun f => cellOf b (32 + f)), (List.range 8).map (fun f => cellOf b (24 + f)), (List.range 8).map (fun f => cellOf b (16 + f)), (List.range 8).map (fun f => cellOf b (8 + f)), (List.range 8).map (fun f => cellOf b (0 + f))] : List (List (Option (Piece × Bool)))).length = 8 := rfl
  have hcl : ∀ c ∈ ([(List.range 8).map (fun f => cellOf b (56 + f)), (List.range 8).map (fun f => cellOf b (48 + f)), (List.range 8).map (fun f => cellOf b (40 + f)), (List.range 8).map (fun f => cellOf b (32 + f)), (List.range 8).map (fun f => cellOf b (24 + f)), (List.range 8).map (fun f => cellOf b (16 + f)), (List.range 8).map (fun f => cellOf b (8 + f)), (List.range 8).map (fun f => cellOf b (0 + f))] : List (List (Option (Piece × Bool)))), c.length = 8 := by
    intro c hc
    simp only [List.mem_cons, List.not_mem_nil, or_false] at hc
    rcases hc with rfl | rfl | rfl | rfl | rfl | rfl | rfl | rfl <;> simp
  have hclprop : ∀ c ∈ ([(List.range 8).map (fun f => cellOf b (56 + f)), (List.range 8).map (fun f => cellOf b (48 + f)), (List.range 8).map (fun f => cellOf b (40 + f)), (List.range 8).map (fun f => cellOf b (32 + f)), (List.range 8).map (fun f => cellOf b (24 + f)), (List.range 8).map (fun f => cellOf b (16 + f)), (List.range 8).map (fun f => cellOf b (8 + f)), (List.range 8).map (fun f => cellOf b (0 + f))] : List (List (Option (Piece × Bool)))),
      ∀ cell ∈ c, properCell cell := by
    intro c hc
    simp only [List.mem_cons, List.not_mem_nil, or_false] at hc
    rcases hc with rfl | rfl | rfl | rfl | rfl | rfl | rfl | rfl
    · exact hprop0
    · exact hprop1
    · exact hprop2
    · exact hprop3
    · exact hprop4
    · exact hprop5
    · exact hprop6
    · exact hprop7
  have hgetD : ∀ K, K < 8 → ([(List.range 8).map (fun f => cellOf b (56 + f)), (List.range 8).map (fun f => cellOf b (48 + f)), (List.range 8).map (fun f => cellOf b (40 + f)), (List.range 8).map (fun f => cellOf b (32 + f)), (List.range 8).map (fun f => cellOf b (24 + f)), (List.range 8).map (fun f => cellOf b (16 + f)), (List.range 8).map (fun f => cellOf b (8 + f)), (List.range 8).map (fun f => cellOf b (0 + f))] : List (List (Option (Piece × Bool)))).getD K [] =
      (List.range 8).map (fun f => cellOf b (56 - K * 8 + f)) := by
    intro K hK
    interval_cases K <;> rfl
  have hcellat : ∀ j, j < 64 →
      (([(List.range 8).map (fun f => cellOf b (56 + f)), (List.range 8).map (fun f => cellOf b (48 + f)), (List.range 8).map (fun f => cellOf b (40 + f)), (List.range 8).map (fun f => cellOf b (32 + f)), (List.range 8).map (fun f => cellOf b (24 + f)), (List.range 8).map (fun f => cellOf b (16 + f)), (List.range 8).map (fun f => cellOf b (8 + f)), (List.range 8).map (fun f => cellOf b (0 + f))] : List (List (Option (Piece × Bool)))).getD (7 - j / 8) []).getD (j % 8) none =
        cellOf b j := by
    intro j hj
    rw [hgetD (7 - j / 8) (by omega),
      List.getD_eq_getElem _ none (by simpa using (by omega : j % 8 < 8)),
      List.getElem_map, List.getElem_range]
    exact congrArg (cellOf b) (by omega)
  have hBw : (loadFen (getFen b)).white = (placeRanks [(List.range 8).map (fun f => cellOf b (56 + f)), (List.range 8).map (fun f => cellOf b (48 + f)), (List.range 8).map (fun f => cellOf b (40 + f)), (List.range 8).map (fun f => cellOf b (32 + f)), (List.range 8).map (fun f => cellOf b (24 + f)), (List.range 8).map (fun f => cellOf b (16 + f)), (List.range 8).map (fun f => cellOf b (8 + f)), (List.range 8).map (fun f => cellOf b (0 + f))] 0 placeZero).white := by
    rw [hload, hlp]
  have hBb : (loadFen (getFen b)).black = (placeRanks [(List.range 8).map (fun f => cellOf b (56 + f)), (List.range 8).map (fun f => cellOf b (48 + f)), (List.range 8).map (fun f => cellOf b (40 + f)), (List.range 8).map (fun f => cellOf b (32 + f)), (List.range 8).map (fun f => cellOf b (24 + f)), (List.range 8).map (fun f => cellOf b (16 + f)), (List.range 8).map (fun f => cellOf b (8 + f)), (List.range 8).map (fun f => cellOf b (0 + f))] 0 placeZero).black := by
    rw [hload, hlp]
  have hBp : (loadFen (getFen b)).pieces = (placeRanks [(List.range 8).map (fun f => cellOf b (56 + f)), (List.range 8).map (fun f => cellOf b (48 + f)), (List.range 8).map (fun f => cellOf b (40 + f)), (List.range 8).map (fun f => cellOf b (32 + f)), (List.range 8).map (fun f => cellOf b (24 + f)), (List.range 8).map (fun f => cellOf b (16 + f)), (List.range 8).map (fun f => cellOf b (8 + f)), (List.range 8).map (fun f => cellOf b (0 + f))] 0 placeZero).pieces := by
    rw [hload, hlp]
  have hwhite : (loadFen (getFen b)).white = b.white := by
    rw [hBw]
    apply Nat.eq_of_testBit_eq
    intro j
    rcases Nat.lt_or_ge j 64 with hj | hj
    · have hbit := placeRanks_zero_testBit cellWhiteB PlaceSt.white
        (fun base cells pos st j2 _ _ => applyCells_white_testBit base cells pos st j2)
        rfl [(List.range 8).map (fun f => cellOf b (56 + f)), (List.range 8).map (fun f => cellOf b (48 + f)), (List.range 8).map (fun f => cellOf b (40 + f)), (List.range 8).map (fun f => cellOf b (32 + f)), (List.range 8).map (fun f => cellOf b (24 + f)), (List.range 8).map (fun f => cellOf b (16 + f)), (List.range 8).map (fun f => cellOf b (8 + f)), (List.range 8).map (fun f => cellOf b (0 + f))] hcl8 hcl hclprop (7 - j / 8) (j % 8) (by omega) (by omega)
      rw [show 56 - (7 - j / 8) * 8 + j % 8 = j from by omega] at hbit
      rw [hbit, hcellat j hj, (cellOf_bits b j hlen6 hdisj hor hpdisj).1]
    · rw [placeRanks_zero_testBit_high cellWhiteB PlaceSt.white
        (fun base cells pos st j2 _ _ => applyCells_white_testBit base cells pos st j2)
        rfl [(List.range 8).map (fun f => cellOf b (56 + f)), (List.range 8).map (fun f => cellOf b (48 + f)), (List.range 8).map (fun f => cellOf b (40 + f)), (List.range 8).map (fun f => cellOf b (32 + f)), (List.range 8).map (fun f => cellOf b (24 + f)), (List.range 8).map (fun f => cellOf b (16 + f)), (List.range 8).map (fun f => cellOf b (8 + f)), (List.range 8).map (fun f => cellOf b (0 + f))] hcl8 hcl hclprop j hj]
      exact (Nat.testBit_lt_two_pow
        (lt_of_lt_of_le hwlt (Nat.pow_le_pow_right (by norm_num) hj))).symm
  have hblack : (loadFen (getFen b)).black = b.black := by
    rw [hBb]
    apply Nat.eq_of_testBit_eq
    intro j
    rcases Nat.lt_or_ge j 64 with hj | hj
    · have hbit := placeRanks_zero_testBit cellBlackB PlaceSt.black
        (fun base cells pos st j2 _ _ => applyCells_black_testBit base cells pos st j2)
        rfl [(List.range 8).map (fun f => cellOf b (56 + f)), (List.range 8).map (fun f => cellOf b (48 + f)), (List.range 8).map (fun f => cellOf b (40 + f)), (List.range 8).map (fun f => cellOf b (32 + f)), (List.range 8).map (fun f => cellOf b (24 + f)), (List.range 8).map (fun f => cellOf b (16 + f)), (List.range 8).map (fun f => cellOf b (8 + f)), (List.range 8).map (fun f => cellOf b (0 + f))] hcl8 hcl hclprop (7 - j / 8) (j % 8) (by omega) (by omega)
      rw [show 56 - (7 - j / 8) * 8 + j % 8 = j from by omega] at hbit
      rw [hbit, hcellat j hj, (cellOf_bits b j hlen6 hdisj hor hpdisj).2.1]
    · rw [placeRanks_zero_testBit_high cellBlackB PlaceSt.black
        (fun base cells pos st j2 _ _ => applyCells_black_testBit base cells pos st j2)
        rfl [(List.range 8).map (fun f => cellOf b (56 + f)), (List.range 8).map (fun f => cellOf b (48 + f)), (List.range 8).map (fun f => cellOf b (40 + f)), (List.range 8).map (fun f => cellOf b (32 + f)), (List.range 8).map (fun f => cellOf b (24 + f)), (List.range 8).map (fun f => cellOf b (16 + f)), (List.range 8).map (fun f => cellOf b (8 + f)), (List.range 8).map (fun f => cellOf b (0 + f))] hcl8 hcl hclprop j hj]
      exact (Nat.testBit_lt_two_pow
        (lt_of_lt_of_le hblt (Nat.pow_le_pow_right (by norm_num) hj))).symm
  have hpieces : (loadFen (getFen b)).pieces = b.pieces := by
    rw [hBp]
    have hll : (placeRanks [(List.range 8).map (fun f => cellOf b (56 + f)), (List.range 8).map (fun f => cellOf b (48 + f)), (List.range 8).map (fun f => cellOf b (40 + f)), (List.range 8).map (fun f => cellOf b (32 + f)), (List.range 8).map (fun f => cellOf b (24 + f)), (List.range 8).map (fun f => cellOf b (16 + f)), (List.range 8).map (fun f => cellOf b (8 + f)), (List.range 8).map (fun f => cellOf b (0 + f))] 0 placeZero).pieces.length = 6 := by
      rw [placeRanks_pieces_length]
      rfl
    apply List.ext_getElem (by rw [hll, hlen6])
    intro k hk1 hk2
    have hk : k < 6 := by
      rw [hll] at hk1
      exact hk1
    rw [← List.getD_eq_getElem _ 0 hk1, ← List.getD_eq_getElem _ 0 hk2]
    apply Nat.eq_of_testBit_eq
    intro j
    rcases Nat.lt_or_ge j 64 with hj | hj
    · have hbit := placeRanks_zero_testBit (cellPieceB k) (fun st => st.pieces.getD k 0)
        (fun base cells pos st j2 hl hpr =>
          applyCells_pieces_testBit base cells pos st k j2 hl hk hpr)
        (placeZero_pieces_getD k) [(List.range 8).map (fun f => cellOf b (56 + f)), (List.range 8).map (fun f => cellOf b (48 + f)), (List.range 8).map (fun f => cellOf b (40 + f)), (List.range 8).map (fun f => cellOf b (32 + f)), (List.range 8).map (fun f => cellOf b (24 + f)), (List.range 8).map (fun f => cellOf b (16 + f)), (List.range 8).map (fun f => cellOf b (8 + f)), (List.range 8).map (fun f => cellOf b (0 + f))] hcl8 hcl hclprop (7 - j / 8) (j % 8)
        (by omega) (by omega)
      rw [show 56 - (7 - j / 8) * 8 + j % 8 = j from by omega] at hbit
      rw [hbit, hcellat j hj, (cellOf_bits b j hlen6 hdisj hor hpdisj).2.2 k hk]
    · rw [placeRanks_zero_testBit_high (cellPieceB k) (fun st => st.pieces.getD k 0)
        (fun base cells pos st j2 hl hpr =>
          applyCells_pieces_testBit base cells pos st k j2 hl hk hpr)
        (placeZero_pieces_getD k) [(List.range 8).map (fun f => cellOf b (56 + f)), (List.range 8).map (fun f => cellOf b (48 + f)), (List.range 8).map (fun f => cellOf b (40 + f)), (List.range 8).map (fun f => cellOf b (32 + f)), (List.range 8).map (fun f => cellOf b (24 + f)), (List.range 8).map (fun f => cellOf b (16 + f)), (List.range 8).map (fun f => cellOf b (8 + f)), (List.range 8).map (fun f => cellOf b (0 + f))] hcl8 hcl hclprop j hj]
      exact (Nat.testBit_lt_two_pow
        (lt_of_lt_of_le (hplt k hk) (Nat.pow_le_pow_right (by norm_num) hj))).symm
  have hturn : (loadFen (getFen b)).turn = b.turn := by
    rw [hload, hfsplit]
    cases hbt : b.turn <;> rfl
  have hcastle : (loadFen (getFen b)).castleRights = b.castleRights := by
    rw [hload, hfsplit, hcr]
    exact castleFold_castleString b a0 a1 a2 a3 hcr
  have hepload : (loadFen (getFen b)).enPassantSquare = b.enPassantSquare := by
    rw [hload, hfsplit, hep]
    rfl
  have hhalf : (loadFen (getFen b)).halfMove = b.halfMove := by
    rw [hload, hfsplit]
    show (natParseQ (natPrint b.halfMove)).getD 0 = b.halfMove
    rw [natParseQ_natPrint]
    rfl
  have hfull : (loadFen (getFen b)).fullMove = b.fullMove := by
    rw [hload, hfsplit]
    show (natParseQ (natPrint b.fullMove)).getD 0 = b.fullMove
    rw [natParseQ_natPrint]
    rfl
  exact ⟨hwhite, hblack, hpieces, hturn, hcastle, hepload, hhalf, hfull⟩

end WChess

/-! ### Theorems settling the claims -/

namespace WChess

open Chessboard

set_option maxRecDepth 100000

/-- C1, counterexample: in the position
`r3k2r/8/8/8/8/5R2/8/K7 b kq - 0 1` the castling destination g8 (square 62)
is included in the black king's legal-move mask even though the pass-through
square f8 (square 61) is in the opponent's recomputed attack mask for the
castling hypothetical — so a castling destination can be legal while the
pass-through square is attacked, contradicting the claim. -/
theorem C1_counterexample :
    ((fromFen "r3k2r/8/8/8/8/5R2/8/K7 b kq - 0 1").legalMoves.getD 60 0).testBit 62 = true ∧
      ((fromFen "r3k2r/8/8/8/8/5R2/8/K7 b kq - 0 1").getAttackMask false
          (((fromFen "r3k2r/8/8/8/8/5R2/8/K7 b kq - 0 1").all &&& not64 (1 <<< 60)) |||
            (1 <<< 62))).testBit 61 = true := by
  decide

/-- C1, amended: the castling attack test is color-asymmetric and never
involves the king's origin square.  For a white king on origin `i`, the
castling destination g1 (resp. c1) is in the legal mask iff it is
pseudo-legal and the recomputed opponent attack mask misses both traversed
squares f1 and g1 (resp. c1 and d1); for a black king, g8 (resp. c8) is in
the legal mask iff it is pseudo-legal and the attack mask misses the
destination square alone — the pass-through square f8/d8 is not tested. -/
theorem C1_amended_castle_filter (b : Chessboard) (i : Nat)
    (hpiece : b.getPiece (1 <<< i) = Piece.KING)
    (hgate : ((1 <<< i) &&& b.getColor b.turn == 0) = false) :
    ((b.white &&& (1 <<< i) != 0) = true →
        ((Chessboard.legalFilterOne b i).testBit 6 =
            ((b.pseudoLegalMoves.getD i 0).testBit 6 &&
              (b.getAttackMask true ((b.all &&& not64 (1 <<< i)) ||| 2 ^ 6) &&&
                WHITE_KING_SIDE_CASTLE == 0)) ∧
          (Chessboard.legalFilterOne b i).testBit 2 =
            ((b.pseudoLegalMoves.getD i 0).testBit 2 &&
              (b.getAttackMask true ((b.all &&& not64 (1 <<< i)) ||| 2 ^ 2) &&&
                WHITE_QUEEN_SIDE_CASTLE == 0)))) ∧
      ((b.white &&& (1 <<< i) != 0) = false →
        ((Chessboard.legalFilterOne b i).testBit 62 =
            ((b.pseudoLegalMoves.getD i 0).testBit 62 &&
              (b.getAttackMask false ((b.all &&& not64 (1 <<< i)) ||| 2 ^ 62) &&&
                BLACK_KING_SIDE_CASTLE_SQUARE == 0)) ∧
          (Chessboard.legalFilterOne b i).testBit 58 =
            ((b.pseudoLegalMoves.getD i 0).testBit 58 &&
              (b.getAttackMask false ((b.all &&& not64 (1 <<< i)) ||| 2 ^ 58) &&&
                BLACK_QUEEN_SIDE_CASTLE_SQUARE == 0)))) := by
  constructor
  · intro hw
    constructor
    · rw [legalFilterOne_testBit b i 6 (by norm_num), hgate]
      simp only [Chessboard.destLegal, hpiece, hw]
      norm_num
      rw [if_neg (by decide)]
    · rw [legalFilterOne_testBit b i 2 (by norm_num), hgate]
      simp only [Chessboard.destLegal, hpiece, hw]
      norm_num
      rw [if_pos (by decide), if_neg (by decide)]
  · intro hw
    constructor
    · rw [legalFilterOne_testBit b i 62 (by norm_num), hgate]
      simp only [Chessboard.destLegal, hpiece, hw]
      norm_num
      rw [if_neg (by decide)]
    · rw [legalFilterOne_testBit b i 58 (by norm_num), hgate]
      simp only [Chessboard.destLegal, hpiece, hw]
      norm_num
      rw [if_pos (by decide), if_neg (by decide)]

/-- C1, witness: the amended characterization applied to the black king
(square 60) of `r3k2r/8/8/8/8/5R2/8/K7 b kq - 0 1`. -/
theorem C1_amended_witness :
    (Chessboard.legalFilterOne (fromFen "r3k2r/8/8/8/8/5R2/8/K7 b kq - 0 1") 60).testBit 62 =
      (((fromFen "r3k2r/8/8/8/8/5R2/8/K7 b kq - 0 1").pseudoLegalMoves.getD 60 0).testBit 62 &&
        ((fromFen "r3k2r/8/8/8/8/5R2/8/K7 b kq - 0 1").getAttackMask false
            (((fromFen "r3k2r/8/8/8/8/5R2/8/K7 b kq - 0 1").all &&&
              not64 (1 <<< 60)) ||| 2 ^ 62) &&&
          BLACK_KING_SIDE_CASTLE_SQUARE == 0)) :=
  ((C1_amended_castle_filter (fromFen "r3k2r/8/8/8/8/5R2/8/K7 b kq - 0 1") 60
    (by decide) (by decide)).2 (by decide)).1

/-- C2, counterexample: applying `e4` to the start position does not produce
the claimed FEN — the en-passant field of the result is not `e3`. -/
theorem C2_counterexample :
    getFen ((fromFen "rnbqkbnr/pppppppp/8/8/8/8/PPPPPPPP/RNBQKBNR w KQkq - 0 1").moveTo "e4") ≠
      "rnbqkbnr/pppppppp/8/8/4P3/8/PPPP1PPP/RNBQKBNR b KQkq e3 0 1" := by
  decide

/-- C2, amended: applying `e4` to the start position yields the same FEN with
an empty en-passant field, `rnbqkbnr/pppppppp/8/8/4P3/8/PPPP1PPP/RNBQKBNR b
KQkq - 0 1`, because no enemy pawn stands adjacent to the landing square so no
en-passant target is recorded. -/
theorem C2_amended_e4_fen :
    getFen ((fromFen "rnbqkbnr/pppppppp/8/8/8/8/PPPPPPPP/RNBQKBNR w KQkq - 0 1").moveTo "e4") =
      "rnbqkbnr/pppppppp/8/8/4P3/8/PPPP1PPP/RNBQKBNR b KQkq - 0 1" := by
  decide

/-- C3: in `k7/8/8/8/8/8/P6p/K7 w - - 0 1` the pseudo-legal mask of the white
pawn on a2 (square 8) contains h2 (square 15) — the `<< 7` diagonal wraps
around the board edge onto the enemy pawn one rank below on the opposite
file, which is neither a forward advance nor a diagonally forward-adjacent
square, contradicting the claimed shape of pawn destinations. -/
theorem C3_wraparound_capture :
    ((fromFen "k7/8/8/8/8/8/P6p/K7 w - - 0 1").generatePawnMoves (1 <<< 8)).testBit 15 = true ∧
      claimedPawnShape true 8 15 = false := by
  decide

/-- C4: from `rnbqkbnr/pppppppp/8/4P3/8/8/8/R3K2R b KQkq - 0 1`, black's
double push `d5` records the en-passant target d6 (square 43), and white's
subsequent `O-O` is applied (the white king reaches g1) yet leaves the stored
en-passant target in place instead of clearing it: the castling branch of
`move_to` never touches `en_passant_square`. -/
theorem C4_castling_keeps_en_passant :
    ((((fromFen "rnbqkbnr/pppppppp/8/4P3/8/8/8/R3K2R b KQkq - 0 1").moveTo "d5").moveTo
        "O-O").enPassantSquare = some (1 <<< 43)) ∧
      ((((fromFen "rnbqkbnr/pppppppp/8/4P3/8/8/8/R3K2R b KQkq - 0 1").moveTo "d5").moveTo
          "O-O").white.testBit 6 = true) := by
  decide

/-- C5: from `rnbqkbnr/pppppppp/8/8/8/8/PPPPP2P/RNBQK2R w KQkq - 0 1` the
move `O-O` is applied — the resulting FEN is exactly the one the repository's
own test expects — yet the move history stays empty and the repetition table
is left untouched: the castling branch of `move_to` appends no record and
performs no repetition update. -/
theorem C5_castling_skips_history :
    (((fromFen "rnbqkbnr/pppppppp/8/8/8/8/PPPPP2P/RNBQK2R w KQkq - 0 1").moveTo
        "O-O").history = []) ∧
      (((fromFen "rnbqkbnr/pppppppp/8/8/8/8/PPPPP2P/RNBQK2R w KQkq - 0 1").moveTo
          "O-O").boardRepetitions =
        (fromFen "rnbqkbnr/pppppppp/8/8/8/8/PPPPP2P/RNBQK2R w KQkq - 0 1").boardRepetitions) ∧
      getFen ((fromFen "rnbqkbnr/pppppppp/8/8/8/8/PPPPP2P/RNBQK2R w KQkq - 0 1").moveTo
          "O-O") = "rnbqkbnr/pppppppp/8/8/8/8/PPPPP2P/RNBQ1RK1 b kq - 1 1" := by
  decide

/-- C8: the position built from the standard start FEN has exactly 20 legal
moves in the enumeration — 4 knight moves (strings with the `N` letter) and
16 pawn moves (bare destination strings of two characters). -/
theorem C8_start_twenty_moves :
    (legalMovesList (fromFen "rnbqkbnr/pppppppp/8/8/8/8/PPPPPPPP/RNBQKBNR w KQkq - 0 1")).length
        = 20 ∧
      ((legalMovesList (fromFen
          "rnbqkbnr/pppppppp/8/8/8/8/PPPPPPPP/RNBQKBNR w KQkq - 0 1")).filter
            (fun s => s.data.headD ' ' == 'N')).length = 4 ∧
      ((legalMovesList (fromFen
          "rnbqkbnr/pppppppp/8/8/8/8/PPPPPPPP/RNBQKBNR w KQkq - 0 1")).filter
            (fun s => s.data.length == 2)).length = 16 := by
  decide

/-- C7: whenever a SAN input does not resolve to a legal origin/destination
pair — whether the parse fails or the parsed descriptor matches nothing in the
three resolution branches — `move_to` returns the board with every field
unchanged: occupancy and piece masks, side to move, castling rights,
en-passant target, clocks, repetition table, move history, and both move
tables. -/
theorem C7_unresolved_leaves_board_unchanged (b : Chessboard) (san : String)
    (h : moveResolves b san = false) : b.moveTo san = b := by
  unfold moveResolves at h
  unfold Chessboard.moveTo
  cases hp : SanMove.parse san with
  | error e => rfl
  | ok vsan =>
    rw [hp] at h
    dsimp only at h ⊢
    cases hc : b.moveToCore vsan with
    | none => rfl
    | some b2 => rw [hc] at h; simp at h

/-- C7, witness: the illegal start-position move `Qd5` resolves to nothing and
leaves the start position unchanged. -/
theorem C7_witness :
    moveResolves (fromFen "rnbqkbnr/pppppppp/8/8/8/8/PPPPPPPP/RNBQKBNR w KQkq - 0 1")
        "Qd5" = false ∧
      (fromFen "rnbqkbnr/pppppppp/8/8/8/8/PPPPPPPP/RNBQKBNR w KQkq - 0 1").moveTo "Qd5" =
        fromFen "rnbqkbnr/pppppppp/8/8/8/8/PPPPPPPP/RNBQKBNR w KQkq - 0 1" :=
  ⟨by decide, C7_unresolved_leaves_board_unchanged _ _ (by decide)⟩

/-- C9: SAN parsing is total — every input string yields either a move
descriptor or a parse error — and a file letter followed by a digit whose
rank is out of range after the implicit decrement (`0` or `9`) yields a parse
failure.  (The source's `- 1` on the rank uses the wrapping semantics of
release-mode Rust, under which `0` wraps above 7 and fails the range check.) -/
theorem C9_parse_total_and_out_of_range_rank :
    (∀ s : String, (∃ m, SanMove.parse s = .ok m) ∨ (∃ e, SanMove.parse s = .error e)) ∧
      (∀ c : Char, c ∈ ['a', 'b', 'c', 'd', 'e', 'f', 'g', 'h'] →
        (SanMove.parse (String.mk [c, '0'])).isOk = false ∧
          (SanMove.parse (String.mk [c, '9'])).isOk = false) := by
  constructor
  · intro s
    cases h : SanMove.parse s with
    | ok m => exact .inl ⟨m, rfl⟩
    | error e => exact .inr ⟨e, rfl⟩
  · intro c hc
    fin_cases hc <;> exact ⟨by decide, by decide⟩

/-- C9, witness: at the file letter `e`, both `e0` and `e9` fail to parse. -/
theorem C9_witness :
    'e' ∈ ['a', 'b', 'c', 'd', 'e', 'f', 'g', 'h'] ∧
      ((SanMove.parse (String.mk ['e', '0'])).isOk = false ∧
        (SanMove.parse (String.mk ['e', '9'])).isOk = false) :=
  ⟨by decide, C9_parse_total_and_out_of_range_rank.2 'e' (by decide)⟩

/-- C10: every string of the legal-move enumeration is an optional piece
letter (`K`, `Q`, `R`, `B`, `N`) followed by a destination square name, with
no origin, capture, check, promotion, or castling notation; two distinct
knight moves to the same destination produce the identical string `Ne4`
twice; and a position with king-side castling available renders the castle as
the king move `Kg1`, never as `O-O`. -/
theorem C10_move_string_shape :
    (∀ (b : Chessboard), ∀ s ∈ b.legalMovesList, ∃ pfx idx, idx < 64 ∧
        pfx ∈ ["K", "Q", "R", "B", "N", ""] ∧ s = pfx ++ squareName idx) ∧
      ((legalMovesList (fromFen "k7/8/8/8/8/2N3N1/8/K7 w - - 0 1")).count "Ne4" = 2) ∧
      ("Kg1" ∈ legalMovesList
          (fromFen "rnbqkbnr/pppppppp/8/8/8/8/PPPPP2P/RNBQK2R w KQkq - 0 1") ∧
        "O-O" ∉ legalMovesList
          (fromFen "rnbqkbnr/pppppppp/8/8/8/8/PPPPP2P/RNBQK2R w KQkq - 0 1")) := by
  refine ⟨?_, by decide, by decide, by decide⟩
  intro b s hs
  unfold Chessboard.legalMovesList at hs
  rw [mem_foldl_append] at hs
  rcases hs with h | ⟨i, _, hs⟩
  · simp at h
  · rw [List.mem_map] at hs
    obtain ⟨sq, _, rfl⟩ := hs
    cases hp : Chessboard.pieceLetterOf (b.getPiece (1 <<< i)) with
    | none =>
      exact ⟨"", squareOfMask sq, squareOfMask_lt sq, by simp, rfl⟩
    | some p =>
      refine ⟨String.mk [p], squareOfMask sq, squareOfMask_lt sq, ?_, rfl⟩
      have := pieceLetterOf_mem _ _ hp
      fin_cases this <;> simp

/-- C10, witness: the start-position entry `Nf3` has the stated shape. -/
theorem C10_witness :
    "Nf3" ∈ Chessboard.legalMovesList
        (fromFen "rnbqkbnr/pppppppp/8/8/8/8/PPPPPPPP/RNBQKBNR w KQkq - 0 1") ∧
      ∃ pfx idx, idx < 64 ∧ pfx ∈ ["K", "Q", "R", "B", "N", ""] ∧
        "Nf3" = pfx ++ squareName idx :=
  ⟨by decide,
    C10_move_string_shape.1
      (fromFen "rnbqkbnr/pppppppp/8/8/8/8/PPPPPPPP/RNBQKBNR w KQkq - 0 1") "Nf3" (by decide)⟩

/-- C6 counterexample: the FEN after 1.e4 with en-passant field `e3` does not
survive a decode–encode round trip: `load_fen` stores the square as an index,
`get_fen` reads it back as a mask and prints `c1`. -/
theorem C6_counterexample :
    getFen (loadFen "rnbqkbnr/pppppppp/8/8/4P3/8/PPPP1PPP/RNBQKBNR b KQkq e3 0 1") ≠
      "rnbqkbnr/pppppppp/8/8/4P3/8/PPPP1PPP/RNBQKBNR b KQkq e3 0 1" := by
  decide

/-- C6 (amended): FEN encoding and decoding are mutually inverse exactly when
no en-passant target is involved: decoding the encoding of any well-formed
position whose en-passant field is unset reproduces all FEN-visible fields,
and encoding the decoding of any canonical syntactically valid FEN whose
en-passant field is `-` reproduces the string character for character. -/
theorem C6_amended_roundtrip :
    (∀ b : Chessboard, WFPos b → b.enPassantSquare = none →
      (loadFen (getFen b)).white = b.white ∧ (loadFen (getFen b)).black = b.black ∧
      (loadFen (getFen b)).pieces = b.pieces ∧ (loadFen (getFen b)).turn = b.turn ∧
      (loadFen (getFen b)).castleRights = b.castleRights ∧
      (loadFen (getFen b)).enPassantSquare = b.enPassantSquare ∧
      (loadFen (getFen b)).halfMove = b.halfMove ∧
      (loadFen (getFen b)).fullMove = b.fullMove) ∧
    (∀ s : String, validFenNoEp s = true → getFen (loadFen s) = s) :=
  ⟨fun b hWF hep => loadFen_getFen_of_WF b hWF hep,
   fun s hv => getFen_loadFen_of_valid s hv⟩

/-- Witness for C6: both round-trip directions hold at the start position. -/
theorem C6_amended_witness :
    getFen (loadFen START_FEN) = START_FEN ∧
    (loadFen (getFen (loadFen START_FEN))).white = (loadFen START_FEN).white :=
  ⟨C6_amended_roundtrip.2 START_FEN (by decide),
   (C6_amended_roundtrip.1 (loadFen START_FEN) (by decide) (by decide)).1⟩

end WChess
